import Mathlib

/-!
# Verification of the PyKMP codec stack

A shallow embedding of the PyKMP library (Kamstrup KMP protocol codecs) in
Lean 4.  Byte sequences are modelled as `List Nat` (every entry below 256),
Python `decimal.Decimal` values as sign/digits/exponent triples, and
fallible operations return `Except CodecError`.

The definitions follow `src/pykmp/codec.py` and `src/pykmp/messages.py` of
the repository; the theorems in the second half of the file settle the spec
claims about them.
-/

/-! ## Errors

One inductive collecting the exception classes of `codec.py` / `messages.py`
that the embedded operations can raise.  `ackReceived` models the
`AckReceivedException` control-flow signal. -/

set_option maxRecDepth 4000

deriving instance DecidableEq for Except

inductive CodecError where
  | ackReceived
  | dataLengthUnexpected (what : String) (actual : Nat)
      (lengthExpected : Option Nat) (expectedIsMinimum : Bool)
  | boundaryByteInvalid (what : String) (expectedByte actualByte : Nat)
  | invalidDestinationAddress
  | crcChecksumInvalid
  | outOfRange (what : String) (validRange : Option Int × Option Int) (actual : Int)
  | unsupportedDecimalExponent
  | overflow
  | messageCidMismatch (cidExpected actual : Nat)
  | fuelExhausted
  deriving DecidableEq

/-! ## Constants (`constants.ByteCode`) -/

def START_FROM_METER : Nat := 0x40

def START_TO_METER : Nat := 0x80

def STOP : Nat := 0x0D

def ACK : Nat := 0x06

def STUFFING : Nat := 0x1B

/-! ## Python `bytes.replace`

`codec.py` performs byte (de)stuffing with `bytes.replace`, always with a
pattern of one byte (stuffing) or two bytes (destuffing).  `replace1` and
`replace2` are Python's left-to-right, non-overlapping substring replacement
specialised to those two pattern lengths; the replacement text is not
rescanned, and after a match the scan resumes after the matched bytes. -/

def replace1 (p : Nat) (rep : List Nat) : List Nat → List Nat
  | [] => []
  | b :: rest => (if b = p then rep else [b]) ++ replace1 p rep rest

def replace2 (p q : Nat) (rep : List Nat) : List Nat → List Nat
  | [] => []
  | [b] => [b]
  | b :: c :: rest =>
    if b = p ∧ c = q then rep ++ replace2 p q rep rest
    else b :: replace2 p q rep (c :: rest)

/-! ## PhysicalCodec -/

inductive PhysicalDirection where
  | TO_METER
  | FROM_METER
  deriving DecidableEq

def PhysicalCodec.startByte : PhysicalDirection → Nat
  | .TO_METER => START_TO_METER
  | .FROM_METER => START_FROM_METER

/-- The `BYTE_STUFFING_MAP` loop of `PhysicalCodec.encode`, unrolled in the
map's insertion order (stuffing byte first): each special byte `b` is
replaced by the pair `0x1B, b XOR 0xFF`. -/
def PhysicalCodec.stuff (dataBytes : List Nat) : List Nat :=
  replace1 STOP [STUFFING, 0xF2]
    (replace1 START_TO_METER [STUFFING, 0x7F]
      (replace1 START_FROM_METER [STUFFING, 0xBF]
        (replace1 ACK [STUFFING, 0xF9]
          (replace1 STUFFING [STUFFING, 0xE4] dataBytes))))

/-- The `BYTE_STUFFING_MAP` loop of `PhysicalCodec.decode`, unrolled in the
map's insertion order: each escape pair `0x1B, b XOR 0xFF` is replaced by the
special byte `b`, the self-referential stuffing escape first. -/
def PhysicalCodec.unstuff (dataBytes : List Nat) : List Nat :=
  replace2 STUFFING 0xF2 [STOP]
    (replace2 STUFFING 0x7F [START_TO_METER]
      (replace2 STUFFING 0xBF [START_FROM_METER]
        (replace2 STUFFING 0xF9 [ACK]
          (replace2 STUFFING 0xE4 [STUFFING] dataBytes))))

/-- `PhysicalCodec.decode` from `codec.py`: empty check, ACK detection,
start/stop byte validation, then destuffing of the interior `frame[1:-1]`. -/
def PhysicalCodec.decode (direction : PhysicalDirection) (frame : List Nat) :
    Except CodecError (List Nat) :=
  if frame = [] then
    .error (.dataLengthUnexpected "Frame" 0 none false)
  else if frame = [ACK] then
    .error .ackReceived
  else if frame.head? ≠ some (PhysicalCodec.startByte direction) then
    .error (.boundaryByteInvalid "start" (PhysicalCodec.startByte direction)
      (frame.headD 0))
  else if frame.getLast? ≠ some STOP then
    .error (.boundaryByteInvalid "stop" STOP (frame.getLastD 0))
  else
    .ok (PhysicalCodec.unstuff ((frame.drop 1).dropLast))

/-- `PhysicalCodec.encode` from `codec.py`: empty check, stuffing, then
start/stop framing. -/
def PhysicalCodec.encode (direction : PhysicalDirection) (dataBytes : List Nat) :
    Except CodecError (List Nat) :=
  if dataBytes = [] then
    .error (.dataLengthUnexpected "Data link bytes" 0 none false)
  else
    .ok (PhysicalCodec.startByte direction :: PhysicalCodec.stuff dataBytes ++ [STOP])

/-! ## CRC-16 (`_create_kamstrup_crc16_ccitt_calculator`)

The `crc` package configured with width 16, polynomial `0x1021`, initial
value `0x0000`, no reflection and zero final XOR computes the classic
MSB-first shift-register CRC: per input byte, XOR the byte into the high
register byte, then shift/reduce eight times. -/

def crc16Round (c : Nat) : Nat :=
  if c &&& 0x8000 ≠ 0 then ((c <<< 1) ^^^ 0x1021) &&& 0xFFFF
  else (c <<< 1) &&& 0xFFFF

def crc16Step (c b : Nat) : Nat := crc16Round^[8] (c ^^^ (b <<< 8))

def crc16 (data : List Nat) : Nat := data.foldl crc16Step 0x0000

/-! ## Big-endian byte conversion (`int.from_bytes` / `int.to_bytes`) -/

def natFromBytesBE (l : List Nat) : Nat := l.foldl (fun acc b => acc * 256 + b) 0

def natToBytesBE : Nat → Nat → List Nat
  | 0, _ => []
  | len + 1, m => natToBytesBE len (m / 256) ++ [m % 256]

/-! ## DataLinkCodec -/

structure DataLinkData where
  destination_address : Nat
  application_bytes : List Nat
  crc_value : Option Nat := none
  deriving DecidableEq

/-- `DataLinkCodec.decode`: minimum-length check, destructuring into
`raw[0]`, `raw[1:-2]` and `raw[-2:]`, and CRC verification over the whole
buffer (`verify(raw, expected=0)`). -/
def DataLinkCodec.decode (raw : List Nat) : Except CodecError DataLinkData :=
  if raw.length < 4 then
    .error (.dataLengthUnexpected "Data link layer message to destructure"
      raw.length (some 4) true)
  else if crc16 raw ≠ 0 then
    .error .crcChecksumInvalid
  else
    .ok { destination_address := raw.headD 0
          application_bytes := ((raw.drop 1).dropLast).dropLast
          crc_value := some (natFromBytesBE (raw.drop (raw.length - 2))) }

/-- `DataLinkCodec.encode`: one-byte address check, non-empty application
bytes check, then append the CRC over address and application bytes,
big-endian. -/
def DataLinkCodec.encode (data : DataLinkData) : Except CodecError (List Nat) :=
  if 256 ≤ data.destination_address then
    .error .invalidDestinationAddress
  else if data.application_bytes.length < 1 then
    .error (.dataLengthUnexpected "Application data"
      data.application_bytes.length (some 1) true)
  else
    .ok ((data.destination_address :: data.application_bytes) ++
      [crc16 (data.destination_address :: data.application_bytes) >>> 8,
       crc16 (data.destination_address :: data.application_bytes) % 256])

/-! ## FloatCodec

Python `decimal.Decimal` values are modelled by their
`as_tuple()` representation: a sign, a most-significant-first digit list and
an integer exponent.  Numeric (Python `==`) equality is equality of the
rational value `PyDecimal.toRat`. -/

structure PyDecimal where
  sign : Bool
  digits : List Nat
  exp : Int
  deriving DecidableEq

/-- `int("".join(str(digit) for digit in digits))`: the digit list read as a
base-10 numeral, most significant digit first. -/
def digitsToNat (ds : List Nat) : Nat := ds.foldl (fun acc d => acc * 10 + d) 0

/-- Little-endian base-10 digits, with explicit fuel so that the kernel can
evaluate it (the fuel argument is always at least the represented number). -/
def decDigitsAux : Nat → Nat → List Nat
  | _, 0 => []
  | 0, _ => []
  | fuel + 1, m => m % 10 :: decDigitsAux fuel (m / 10)

def decDigits (m : Nat) : List Nat := decDigitsAux m m

/-- The digit tuple of `str(m)`: most significant digit first, and `[0]` for
zero (as `str(0) = "0"`). -/
def natDecDigits (m : Nat) : List Nat := if m = 0 then [0] else (decDigits m).reverse

/-- `int.bit_length`, again with fuel for kernel evaluation. -/
def bitLengthAux : Nat → Nat → Nat
  | _, 0 => 0
  | 0, _ => 0
  | fuel + 1, m => bitLengthAux fuel (m / 2) + 1

def bitLength (m : Nat) : Nat := bitLengthAux m m

/-- `math.ceil(m.bit_length() / 8)`: bytes needed to hold `m` unsigned. -/
def bytesNeeded (m : Nat) : Nat := (bitLength m + 7) / 8

/-- Length of the coefficient digit string (`len(self._int)`): the decimal
digit count of the mantissa value, and 1 for zero.  Python's `Decimal`
constructor strips leading zeros from a digit tuple, so the stored
coefficient length is exactly this. -/
def numDigits (m : Nat) : Nat := (natDecDigits m).length

/-- The default `decimal` context precision (`getcontext().prec`); the
repository never changes the context. -/
def DEFAULT_PREC : Nat := 28

/-- Drop the low `k` decimal digits of `m`, rounding half to even
(`ROUND_HALF_EVEN`, the default context rounding). -/
def roundHalfEven (m k : Nat) : Nat :=
  if m % 10 ^ k > 5 * 10 ^ (k - 1) then m / 10 ^ k + 1
  else if m % 10 ^ k < 5 * 10 ^ (k - 1) then m / 10 ^ k
  else if (m / 10 ^ k) % 2 = 0 then m / 10 ^ k else m / 10 ^ k + 1

/-- `Decimal._fix` under the default context: when the coefficient is longer
than the context precision (28 significant digits), round it to 28 digits
half-to-even, adding the dropped count to the exponent; a carry that makes
the rounded coefficient 29 digits drops the trailing zero and bumps the
exponent once more.  The overflow, subnormal and clamp paths of `_fix`
require an adjusted exponent near the default `Emax`/`Emin` of ±999999 and
cannot be reached from the float codec, whose exponents are confined to
[-63, 63] and whose coefficients have at most 255 bytes. -/
def pyFix (m : Nat) (e : Int) : Nat × Int :=
  if numDigits m ≤ DEFAULT_PREC then (m, e)
  else
    if numDigits (roundHalfEven m (numDigits m - DEFAULT_PREC)) ≤ DEFAULT_PREC then
      (roundHalfEven m (numDigits m - DEFAULT_PREC),
       e + (numDigits m - DEFAULT_PREC : Nat))
    else
      (roundHalfEven m (numDigits m - DEFAULT_PREC) / 10,
       e + (numDigits m - DEFAULT_PREC : Nat) + 1)

/-- `decimal.Decimal.normalize().as_tuple()` on a finite value, per the
stdlib implementation: first `_fix` rounds the coefficient to the context
precision (`pyFix`), then the trailing zero digits of the (leading-zero
free) coefficient are stripped into the exponent; a zero value is reduced
to coefficient `(0,)` with exponent `0` (the sign is kept). -/
def pyNormalize (d : PyDecimal) : PyDecimal :=
  if (pyFix (digitsToNat d.digits) d.exp).1 = 0 then
    ⟨d.sign, [0], 0⟩
  else
    ⟨d.sign,
     ((natDecDigits ((pyFix (digitsToNat d.digits) d.exp).1)).reverse.dropWhile
        (fun x => x == 0)).reverse,
     (pyFix (digitsToNat d.digits) d.exp).2 +
       ((natDecDigits ((pyFix (digitsToNat d.digits) d.exp).1)).reverse.length -
        ((natDecDigits ((pyFix (digitsToNat d.digits) d.exp).1)).reverse.dropWhile
          (fun x => x == 0)).length : Nat)⟩

/-- `FloatCodec._decode_parts`: length checks, then split into value sign,
exponent sign, exponent magnitude and the big-endian mantissa
`data[2 : integer_length + 2]`. -/
def FloatCodec.decodeParts (data : List Nat) :
    Except CodecError (Bool × Bool × Nat × Nat) :=
  match data with
  | [] => .error (.dataLengthUnexpected "Data for floating point decoding" 0 none false)
  | integer_length :: rest =>
    if integer_length = 0 then
      .error (.outOfRange
        "Integer length byte value for floating point data decoding"
        (some 1, none) 0)
    else if rest.length + 1 ≠ integer_length + 2 then
      .error (.dataLengthUnexpected "Floating point data" (rest.length + 1)
        (some (integer_length + 2)) false)
    else
      .ok (((rest.headD 0 &&& 0x80) >>> 7) != 0,
           ((rest.headD 0 &&& 0x40) >>> 6) != 0,
           rest.headD 0 &&& 0x3F,
           natFromBytesBE ((rest.drop 1).take integer_length))

/-- `FloatCodec.decode`: build the `Decimal` from the sign, the digit tuple
of `str(mantissa)` and the signed exponent. -/
def FloatCodec.decode (data : List Nat) : Except CodecError PyDecimal :=
  (FloatCodec.decodeParts data).map (fun p =>
    ⟨p.1, natDecDigits p.2.2.2, if p.2.1 then -(p.2.2.1 : Int) else (p.2.2.1 : Int)⟩)

/-- The packed `sign_exp_byte`:
`sign_bit | exponent_sign_bit | exponent_bits`. -/
def seByte (negative exponent_negative : Bool) (absExp : Nat) : Nat :=
  ((if negative then 1 else 0) <<< 7) |||
  ((if exponent_negative then 1 else 0) <<< 6) |||
  (absExp &&& 0x3F)

/-- Tail of `FloatCodec.encode` after the mantissa byte length is fixed:
exponent range check and packing.  `overflow` models the uncaught Python
`OverflowError` of `mantissa_bytes_length.to_bytes(1, "big")` when the
length does not fit one byte. -/
def FloatCodec.encodeRest (negative : Bool) (exponent : Int) (mantissa : Nat)
    (mantissa_bytes_length : Nat) : Except CodecError (List Nat) :=
  if 63 < exponent.natAbs then
    .error (.outOfRange "Exponent to encode" (none, some 63) exponent.natAbs)
  else if 255 < mantissa_bytes_length then
    .error .overflow
  else
    .ok (mantissa_bytes_length ::
      seByte negative (decide (exponent < 0)) exponent.natAbs ::
      natToBytesBE mantissa_bytes_length mantissa)

/-- `FloatCodec.encode`: normalize the decimal, take its mantissa from the
digit string, pick the mantissa byte length (fixed and range-checked, or
minimal when `significand_num_bytes` is `None`), then pack.  The
`decimal_tuple.exponent` of a finite value is always an integer, so the
`UnsupportedDecimalExponentError` branch of the source cannot fire in this
model. -/
def FloatCodec.encode (to_encode : PyDecimal) (significand_num_bytes : Option Nat) :
    Except CodecError (List Nat) :=
  match significand_num_bytes with
  | some len =>
    if len < bytesNeeded (digitsToNat (pyNormalize to_encode).digits) then
      .error (.outOfRange
        "Significand bytes length of decimal to encode as mantissa"
        (some (len : Int), some (len : Int))
        (bytesNeeded (digitsToNat (pyNormalize to_encode).digits)))
    else
      FloatCodec.encodeRest (pyNormalize to_encode).sign (pyNormalize to_encode).exp
        (digitsToNat (pyNormalize to_encode).digits) len
  | none =>
    FloatCodec.encodeRest (pyNormalize to_encode).sign (pyNormalize to_encode).exp
      (digitsToNat (pyNormalize to_encode).digits)
      (bytesNeeded (digitsToNat (pyNormalize to_encode).digits))

/-- The rational value of a decimal tuple (`(-1)^sign * digits * 10^exp`). -/
def PyDecimal.toRat (d : PyDecimal) : ℚ :=
  (if d.sign then -1 else 1) * (digitsToNat d.digits : ℚ) * (10 : ℚ) ^ d.exp

/-! ## GetRegisterResponse (`messages.py`)

Decoded register mappings are association lists (Python `dict` preserves
insertion order; `dict.update` overwrites in place).  Alongside the mapping,
the embedded decoder counts the `logger.warning` diagnostics the source
emits (short trailing fragment, duplicate register ID). -/

structure RegisterData where
  id_ : Nat
  unit : Nat
  value : List Nat
  deriving DecidableEq

/-- `GetRegisterResponse._decode_one_register_value`.  The returned `Nat` is
the number of warning diagnostics emitted (1 when the remaining bytes after
the record form a non-empty fragment shorter than a minimal record). -/
def GetRegisterResponse.decodeOneRegisterValue (raw : List Nat) :
    Except CodecError (RegisterData × List Nat × Nat) :=
  if raw.length < 6 then
    .error (.dataLengthUnexpected "Data to decode register data" raw.length
      (some 6) true)
  else if raw.length < 4 + (raw.getD 3 0 + 1) then
    .error (.dataLengthUnexpected "Register value data left in buffer" raw.length
      (some (4 + (raw.getD 3 0 + 1))) true)
  else
    .ok (⟨natFromBytesBE (raw.take 2), raw.getD 2 0,
          (raw.drop 3).take ((raw.getD 3 0 + 1) + 1)⟩,
         raw.drop (4 + (raw.getD 3 0 + 1)),
         if 0 < (raw.drop (4 + (raw.getD 3 0 + 1))).length ∧
            (raw.drop (4 + (raw.getD 3 0 + 1))).length < 6 then 1 else 0)

/-- `dict.update({k: v})` on an insertion-ordered association list. -/
def upsert (regs : List (Nat × RegisterData)) (k : Nat) (v : RegisterData) :
    List (Nat × RegisterData) :=
  match regs with
  | [] => [(k, v)]
  | (k', v') :: rest => if k' = k then (k, v) :: rest else (k', v') :: upsert rest k v

/-- The `while bytes_remaining:` loop of `GetRegisterResponse.decode`.  The
fuel argument makes the recursion structural; the loop consumes at least
five bytes per iteration, so fuel equal to the byte count never runs out and
the `fuelExhausted` branch is unreachable. -/
def GetRegisterResponse.decodeLoop :
    Nat → List Nat → List (Nat × RegisterData) → Nat →
    Except CodecError (List (Nat × RegisterData) × Nat)
  | _, [], registers, warns => .ok (registers, warns)
  | 0, _ :: _, _, _ => .error .fuelExhausted
  | fuel + 1, b :: rest, registers, warns =>
    match GetRegisterResponse.decodeOneRegisterValue (b :: rest) with
    | .error e => .error e
    | .ok (register_data, bytes_remaining, w) =>
      GetRegisterResponse.decodeLoop fuel bytes_remaining
        (upsert registers register_data.id_ register_data)
        (warns + w + (if (registers.lookup register_data.id_).isSome then 1 else 0))

/-- `GetRegisterResponse.decode`: command ID validation
(GetRegister CID is `0x10`), then the record-peeling loop. -/
def GetRegisterResponse.decode (command_id : Nat) (data : List Nat) :
    Except CodecError (List (Nat × RegisterData) × Nat) :=
  if command_id ≠ 0x10 then .error (.messageCidMismatch 0x10 command_id)
  else GetRegisterResponse.decodeLoop data.length data [] 0

/-- Digit run of a Python `int()` literal: digits with single underscores
allowed between digits. -/
def pyParseDigits : Nat → List Char → Option Nat
  | acc, [] => some acc
  | acc, c :: rest =>
    if c.isDigit then pyParseDigits (acc * 10 + (c.toNat - 48)) rest
    else if c = '_' then
      match rest with
      | d :: rest2 =>
        if d.isDigit then pyParseDigits (acc * 10 + (d.toNat - 48)) rest2 else none
      | [] => none
    else none

def pyIsSpace (c : Char) : Bool :=
  c = ' ' ∨ c = '\t' ∨ c = '\n' ∨ c = '\x0d' ∨ c = '\x0b' ∨ c = '\x0c'

/-- Python `int(str)` (ASCII): strip surrounding whitespace, allow one
optional sign, then a digit run; `none` models `ValueError`. -/
def pyStrToInt (s : String) : Option Int :=
  match (s.toList.dropWhile pyIsSpace).reverse.dropWhile pyIsSpace with
  | [] => none
  | c :: rest =>
    match (c :: rest).reverse with
    | '+' :: ds =>
      match ds with
      | [] => none
      | d :: ds2 =>
        if d.isDigit then (pyParseDigits (d.toNat - 48) ds2).map Int.ofNat else none
    | '-' :: ds =>
      match ds with
      | [] => none
      | d :: ds2 =>
        if d.isDigit then (pyParseDigits (d.toNat - 48) ds2).map (fun n => -(n : Int))
        else none
    | d :: ds2 =>
      if d.isDigit then (pyParseDigits (d.toNat - 48) ds2).map Int.ofNat else none
    | [] => none

def SERIAL_VALUE_MAX : Nat := 2 ^ 32 - 1

inductive SerialValidation where
  | accepted
  | serialNumberInvalid
  | outOfRange
  deriving DecidableEq

/-- `GetSerialResponse.digits_only_validator`: `int(value)` with
`ValueError` mapped to `SerialNumberInvalidError`, then the inclusive range
check against `SERIAL_VALUE_MAX`. -/
def GetSerialResponse.digits_only_validator (value : String) : SerialValidation :=
  match pyStrToInt value with
  | none => .serialNumberInvalid
  | some n =>
    if 0 ≤ n ∧ n ≤ (SERIAL_VALUE_MAX : Int) then .accepted else .outOfRange

/-! ## Byte-stuffing lemmas

`PhysicalCodec.stuff` acts bytewise (`stuffByte`), and the five destuffing
passes of `PhysicalCodec.unstuff` undo it stage by stage (`g1`–`g4` describe
the intermediate streams) provided the original data never has a `0x1B` byte
immediately followed by one of the escape tails `0xF9/0xBF/0x7F/0xF2`
(`noPair`/`stuffSafe`).  Without that proviso the substring replacements can
merge a destuffed `0x1B` with the following literal byte - see the
counterexample for claim C1. -/

def stuffByte (b : Nat) : List Nat :=
  if b = STUFFING then [STUFFING, 0xE4]
  else if b = ACK then [STUFFING, 0xF9]
  else if b = START_FROM_METER then [STUFFING, 0xBF]
  else if b = START_TO_METER then [STUFFING, 0x7F]
  else if b = STOP then [STUFFING, 0xF2]
  else [b]

def g1 (b : Nat) : List Nat :=
  if b = STUFFING then [STUFFING]
  else if b = ACK then [STUFFING, 0xF9]
  else if b = START_FROM_METER then [STUFFING, 0xBF]
  else if b = START_TO_METER then [STUFFING, 0x7F]
  else if b = STOP then [STUFFING, 0xF2]
  else [b]

def g2 (b : Nat) : List Nat :=
  if b = STUFFING then [STUFFING]
  else if b = ACK then [ACK]
  else if b = START_FROM_METER then [STUFFING, 0xBF]
  else if b = START_TO_METER then [STUFFING, 0x7F]
  else if b = STOP then [STUFFING, 0xF2]
  else [b]

def g3 (b : Nat) : List Nat :=
  if b = STUFFING then [STUFFING]
  else if b = ACK then [ACK]
  else if b = START_FROM_METER then [START_FROM_METER]
  else if b = START_TO_METER then [STUFFING, 0x7F]
  else if b = STOP then [STUFFING, 0xF2]
  else [b]

def g4 (b : Nat) : List Nat :=
  if b = STUFFING then [STUFFING]
  else if b = ACK then [ACK]
  else if b = START_FROM_METER then [START_FROM_METER]
  else if b = START_TO_METER then [START_TO_METER]
  else if b = STOP then [STUFFING, 0xF2]
  else [b]

/-- No `0x1B` byte immediately followed by the byte `t`. -/
def noPair (t : Nat) : List Nat → Bool
  | a :: b :: rest => (!(a == STUFFING && b == t)) && noPair t (b :: rest)
  | _ => true

/-- Data that survives the stuff/destuff roundtrip: no `0x1B` immediately
followed by one of the four non-self escape tails. -/
def stuffSafe (x : List Nat) : Bool :=
  noPair 0xF9 x && noPair 0xBF x && noPair 0x7F x && noPair 0xF2 x

/-- Mantissa of the normalized decimal (what `FloatCodec.encode` packs). -/
def normMantissa (d : PyDecimal) : Nat := digitsToNat (pyNormalize d).digits

/-! ## Theorems -/

/-! ## CRC lemmas

The Kamstrup CRC has initial value 0 and zero final XOR, so the standard
self-check property holds: running the CRC over a buffer with its own
big-endian checksum appended yields zero. -/

theorem xor_shift_cancel (v : Nat) : v ^^^ ((v >>> 8) <<< 8) = v % 2 ^ 8 := by
  apply Nat.eq_of_testBit_eq
  intro i
  rcases lt_or_ge i 8 with hi | hi
  · have h1 : ¬ (8 : Nat) ≤ i := by omega
    simp only [Nat.testBit_xor, Nat.testBit_shiftLeft, Nat.testBit_shiftRight,
      Nat.testBit_mod_two_pow, ge_iff_le, h1, hi]
    simp
  · have h1 : (8 : Nat) ≤ i := hi
    have h8 : 8 + (i - 8) = i := by omega
    have h2 : ¬ i < 8 := by omega
    simp only [Nat.testBit_xor, Nat.testBit_shiftLeft, Nat.testBit_shiftRight,
      Nat.testBit_mod_two_pow, ge_iff_le, h1, h8, h2]
    simp

theorem mod_256_eq (v : Nat) : v % 256 = v % 2 ^ 8 := by norm_num

theorem crc_selfcheck_byte :
    ∀ r, r < 256 → crc16Step (crc16Round^[8] r) r = 0 := by decide

theorem crc16_append_crc (raw : List Nat) :
    crc16 (raw ++ [crc16 raw >>> 8, crc16 raw % 256]) = 0 := by
  show List.foldl crc16Step 0 _ = 0
  rw [List.foldl_append]
  show crc16Step (crc16Step (crc16 raw) (crc16 raw >>> 8)) (crc16 raw % 256) = 0
  have hstep : crc16Step (crc16 raw) (crc16 raw >>> 8) =
      crc16Round^[8] (crc16 raw % 256) := by
    rw [crc16Step, xor_shift_cancel, mod_256_eq]
  rw [hstep]
  exact crc_selfcheck_byte _ (Nat.mod_lt _ (by norm_num))

theorem natFromBytesBE_two (h l : Nat) : natFromBytesBE [h, l] = h * 256 + l := by
  simp [natFromBytesBE, List.foldl]

theorem shiftRight8_mul_add_mod (v : Nat) : (v >>> 8) * 256 + v % 256 = v := by
  rw [Nat.shiftRight_eq_div_pow]
  have h : (2 : Nat) ^ 8 = 256 := by norm_num
  rw [h]
  omega

/-- Round-trip of the data link codec: the encoded buffer passes the length
check, its CRC self-checks to zero, and destructuring recovers the address,
the application bytes and the appended checksum. -/
theorem dataLink_decode_encode (a : Nat) (app : List Nat) (crcv : Option Nat)
    (ha : a < 256) (happ : app ≠ []) :
    DataLinkCodec.encode ⟨a, app, crcv⟩ =
      .ok ((a :: app) ++ [crc16 (a :: app) >>> 8, crc16 (a :: app) % 256]) ∧
    DataLinkCodec.decode
        ((a :: app) ++ [crc16 (a :: app) >>> 8, crc16 (a :: app) % 256]) =
      .ok ⟨a, app, some (crc16 (a :: app))⟩ := by
  have hlen : 1 ≤ app.length := List.length_pos.mpr happ
  constructor
  · have h1 : ¬ 256 ≤ a := by omega
    have h2 : ¬ app.length < 1 := by omega
    simp [DataLinkCodec.encode, h1, h2]
  · set enc := (a :: app) ++ [crc16 (a :: app) >>> 8, crc16 (a :: app) % 256]
      with henc
    have hlen2 : enc.length = app.length + 3 := by simp [henc]
    have h4 : ¬ enc.length < 4 := by omega
    have h5 : ¬ crc16 enc ≠ 0 := by
      rw [henc]
      exact fun hne => hne (crc16_append_crc (a :: app))
    have h1 : enc.headD 0 = a := by simp [henc]
    have h2 : ((enc.drop 1).dropLast).dropLast = app := by
      have hd : enc.drop 1 = (app ++ [crc16 (a :: app) >>> 8]) ++
          [crc16 (a :: app) % 256] := by simp [henc]
      rw [hd, List.dropLast_concat, List.dropLast_concat]
    have h3 : enc.drop (enc.length - 2) =
        [crc16 (a :: app) >>> 8, crc16 (a :: app) % 256] := by
      have hl : enc.length - 2 = (a :: app).length := by simp [hlen2]
      rw [hl, henc, List.drop_left]
    simp only [DataLinkCodec.decode, if_neg h4, if_neg h5, h1, h2, h3,
      natFromBytesBE_two, shiftRight8_mul_add_mod]

theorem replace1_eq_flatMap (p : Nat) (rep : List Nat) (l : List Nat) :
    replace1 p rep l = l.flatMap (fun b => if b = p then rep else [b]) := by
  induction l with
  | nil => rfl
  | cons b rest ih => simp only [replace1, ih, List.flatMap_cons]

theorem stuff_cons (b : Nat) (l : List Nat) :
    PhysicalCodec.stuff (b :: l) = stuffByte b ++ PhysicalCodec.stuff l := by
  simp only [PhysicalCodec.stuff, replace1_eq_flatMap, List.flatMap_cons,
    List.flatMap_append, stuffByte]
  by_cases h27 : b = STUFFING
  · subst h27; rfl
  by_cases h6 : b = ACK
  · subst h6; rfl
  by_cases h64 : b = START_FROM_METER
  · subst h64; rfl
  by_cases h128 : b = START_TO_METER
  · subst h128; rfl
  by_cases h13 : b = STOP
  · subst h13; rfl
  simp [h27, h6, h64, h128, h13]

theorem stuff_eq_flatMap (l : List Nat) :
    PhysicalCodec.stuff l = l.flatMap stuffByte := by
  induction l with
  | nil => rfl
  | cons b rest ih => rw [stuff_cons, ih, List.flatMap_cons]

theorem replace2_pair (p q : Nat) (rep rest : List Nat) :
    replace2 p q rep (p :: q :: rest) = rep ++ replace2 p q rep rest := by
  simp [replace2]

theorem replace2_cons_of_ne (p q : Nat) (rep : List Nat) (b : Nat) (s : List Nat)
    (h : b ≠ p ∨ s.head? ≠ some q) :
    replace2 p q rep (b :: s) = b :: replace2 p q rep s := by
  cases s with
  | nil => rfl
  | cons c rest =>
    have hbc : ¬(b = p ∧ c = q) := by
      rcases h with h | h
      · exact fun hh => h hh.1
      · exact fun hh => h (by simp [hh.2])
    simp [replace2, hbc]

theorem noPair_tail (t b : Nat) (xs : List Nat) (h : noPair t (b :: xs) = true) :
    noPair t xs = true := by
  cases xs with
  | nil => rfl
  | cons y ys =>
    simp only [noPair, Bool.and_eq_true] at h
    exact h.2

theorem noPair_head (t b y : Nat) (ys : List Nat)
    (h : noPair t (b :: y :: ys) = true) (hb : b = STUFFING) : y ≠ t := by
  intro hy
  simp [noPair, hb, hy, Bool.and_eq_true] at h

/-- Every destuffing-stage token starts with `0x1B` or with the original
byte. -/
theorem g_head (g : Nat → List Nat)
    (hg : g = stuffByte ∨ g = g1 ∨ g = g2 ∨ g = g3 ∨ g = g4) (y : Nat) :
    (g y).head? = some STUFFING ∨ (g y).head? = some y := by
  rcases hg with h | h | h | h | h <;> subst h <;>
    simp only [stuffByte, g1, g2, g3, g4] <;> split_ifs with h1 h2 h3 h4 h5 <;>
    simp_all

theorem flatMap_head_ne (g : Nat → List Nat)
    (hg : g = stuffByte ∨ g = g1 ∨ g = g2 ∨ g = g3 ∨ g = g4)
    (t : Nat) (ht : t ≠ STUFFING) (xs : List Nat)
    (hxs : ∀ y ys, xs = y :: ys → y ≠ t) :
    (xs.flatMap g).head? ≠ some t := by
  cases xs with
  | nil => simp
  | cons y ys =>
    have hy : y ≠ t := hxs y ys rfl
    rw [List.flatMap_cons]
    rcases g_head g hg y with h | h
    · cases hgy : g y with
      | nil => rw [hgy] at h; simp at h
      | cons a s =>
        rw [hgy] at h
        simp only [List.head?_cons, Option.some.injEq] at h
        subst h
        simp only [List.cons_append, List.head?_cons, ne_eq, Option.some.injEq]
        exact fun hh => ht hh.symm
    · cases hgy : g y with
      | nil => rw [hgy] at h; simp at h
      | cons a s =>
        rw [hgy] at h
        simp only [List.head?_cons, Option.some.injEq] at h
        subst h
        simp only [List.cons_append, List.head?_cons, ne_eq, Option.some.injEq]
        exact fun hh => hy hh

theorem pass1 (x : List Nat) :
    replace2 STUFFING 0xE4 [STUFFING] (x.flatMap stuffByte) = x.flatMap g1 := by
  induction x with
  | nil => rfl
  | cons b xs ih =>
    rw [List.flatMap_cons, List.flatMap_cons]
    by_cases h27 : b = STUFFING
    · subst h27
      show replace2 STUFFING 0xE4 [STUFFING]
        (STUFFING :: 0xE4 :: xs.flatMap stuffByte) = _
      rw [replace2_pair, ih]; rfl
    by_cases h6 : b = ACK
    · subst h6
      show replace2 STUFFING 0xE4 [STUFFING]
        (STUFFING :: 0xF9 :: xs.flatMap stuffByte) = _
      rw [replace2_cons_of_ne _ _ _ _ _ (by simp [STUFFING]),
        replace2_cons_of_ne _ _ _ _ _ (by left; simp [STUFFING]), ih]
      rfl
    by_cases h64 : b = START_FROM_METER
    · subst h64
      show replace2 STUFFING 0xE4 [STUFFING]
        (STUFFING :: 0xBF :: xs.flatMap stuffByte) = _
      rw [replace2_cons_of_ne _ _ _ _ _ (by simp [STUFFING]),
        replace2_cons_of_ne _ _ _ _ _ (by left; simp [STUFFING]), ih]
      rfl
    by_cases h128 : b = START_TO_METER
    · subst h128
      show replace2 STUFFING 0xE4 [STUFFING]
        (STUFFING :: 0x7F :: xs.flatMap stuffByte) = _
      rw [replace2_cons_of_ne _ _ _ _ _ (by simp [STUFFING]),
        replace2_cons_of_ne _ _ _ _ _ (by left; simp [STUFFING]), ih]
      rfl
    by_cases h13 : b = STOP
    · subst h13
      show replace2 STUFFING 0xE4 [STUFFING]
        (STUFFING :: 0xF2 :: xs.flatMap stuffByte) = _
      rw [replace2_cons_of_ne _ _ _ _ _ (by simp [STUFFING]),
        replace2_cons_of_ne _ _ _ _ _ (by left; simp [STUFFING]), ih]
      rfl
    · have hb : stuffByte b = [b] := by
        simp [stuffByte, h27, h6, h64, h128, h13]
      have hg : g1 b = [b] := by
        simp [g1, h27, h6, h64, h128, h13]
      rw [hb, hg]
      rw [List.singleton_append, List.singleton_append,
        replace2_cons_of_ne _ _ _ _ _ (Or.inl h27), ih]

theorem pass2 (x : List Nat) (h : noPair 0xF9 x = true) :
    replace2 STUFFING 0xF9 [ACK] (x.flatMap g1) = x.flatMap g2 := by
  induction x with
  | nil => rfl
  | cons b xs ih =>
    have htail := noPair_tail _ _ _ h
    rw [List.flatMap_cons, List.flatMap_cons]
    by_cases h27 : b = STUFFING
    · subst h27
      show replace2 STUFFING 0xF9 [ACK] (STUFFING :: xs.flatMap g1) = _
      rw [replace2_cons_of_ne _ _ _ _ _ (Or.inr (flatMap_head_ne g1
          (by right; left; rfl) 0xF9 (by decide) xs
          (fun y ys hys => noPair_head _ _ _ _ (by rw [hys] at h; exact h) rfl))),
        ih htail]
      rfl
    by_cases h6 : b = ACK
    · subst h6
      show replace2 STUFFING 0xF9 [ACK] (STUFFING :: 0xF9 :: xs.flatMap g1) = _
      rw [replace2_pair, ih htail]; rfl
    by_cases h64 : b = START_FROM_METER
    · subst h64
      show replace2 STUFFING 0xF9 [ACK] (STUFFING :: 0xBF :: xs.flatMap g1) = _
      rw [replace2_cons_of_ne _ _ _ _ _ (by simp),
        replace2_cons_of_ne _ _ _ _ _ (by left; decide), ih htail]
      rfl
    by_cases h128 : b = START_TO_METER
    · subst h128
      show replace2 STUFFING 0xF9 [ACK] (STUFFING :: 0x7F :: xs.flatMap g1) = _
      rw [replace2_cons_of_ne _ _ _ _ _ (by simp),
        replace2_cons_of_ne _ _ _ _ _ (by left; decide), ih htail]
      rfl
    by_cases h13 : b = STOP
    · subst h13
      show replace2 STUFFING 0xF9 [ACK] (STUFFING :: 0xF2 :: xs.flatMap g1) = _
      rw [replace2_cons_of_ne _ _ _ _ _ (by simp),
        replace2_cons_of_ne _ _ _ _ _ (by left; decide), ih htail]
      rfl
    · have hb : g1 b = [b] := by simp [g1, h27, h6, h64, h128, h13]
      have hg : g2 b = [b] := by simp [g2, h27, h6, h64, h128, h13]
      rw [hb, hg, List.singleton_append, List.singleton_append,
        replace2_cons_of_ne _ _ _ _ _ (Or.inl h27), ih htail]

theorem pass3 (x : List Nat) (h : noPair 0xBF x = true) :
    replace2 STUFFING 0xBF [START_FROM_METER] (x.flatMap g2) = x.flatMap g3 := by
  induction x with
  | nil => rfl
  | cons b xs ih =>
    have htail := noPair_tail _ _ _ h
    rw [List.flatMap_cons, List.flatMap_cons]
    by_cases h27 : b = STUFFING
    · subst h27
      show replace2 STUFFING 0xBF [START_FROM_METER] (STUFFING :: xs.flatMap g2) = _
      rw [replace2_cons_of_ne _ _ _ _ _ (Or.inr (flatMap_head_ne g2
          (by right; right; left; rfl) 0xBF (by decide) xs
          (fun y ys hys => noPair_head _ _ _ _ (by rw [hys] at h; exact h) rfl))),
        ih htail]
      rfl
    by_cases h6 : b = ACK
    · subst h6
      show replace2 STUFFING 0xBF [START_FROM_METER] (ACK :: xs.flatMap g2) = _
      rw [replace2_cons_of_ne _ _ _ _ _ (by left; decide), ih htail]; rfl
    by_cases h64 : b = START_FROM_METER
    · subst h64
      show replace2 STUFFING 0xBF [START_FROM_METER]
        (STUFFING :: 0xBF :: xs.flatMap g2) = _
      rw [replace2_pair, ih htail]; rfl
    by_cases h128 : b = START_TO_METER
    · subst h128
      show replace2 STUFFING 0xBF [START_FROM_METER]
        (STUFFING :: 0x7F :: xs.flatMap g2) = _
      rw [replace2_cons_of_ne _ _ _ _ _ (by simp),
        replace2_cons_of_ne _ _ _ _ _ (by left; decide), ih htail]
      rfl
    by_cases h13 : b = STOP
    · subst h13
      show replace2 STUFFING 0xBF [START_FROM_METER]
        (STUFFING :: 0xF2 :: xs.flatMap g2) = _
      rw [replace2_cons_of_ne _ _ _ _ _ (by simp),
        replace2_cons_of_ne _ _ _ _ _ (by left; decide), ih htail]
      rfl
    · have hb : g2 b = [b] := by simp [g2, h27, h6, h64, h128, h13]
      have hg : g3 b = [b] := by simp [g3, h27, h6, h64, h128, h13]
      rw [hb, hg, List.singleton_append, List.singleton_append,
        replace2_cons_of_ne _ _ _ _ _ (Or.inl h27), ih htail]

theorem pass4 (x : List Nat) (h : noPair 0x7F x = true) :
    replace2 STUFFING 0x7F [START_TO_METER] (x.flatMap g3) = x.flatMap g4 := by
  induction x with
  | nil => rfl
  | cons b xs ih =>
    have htail := noPair_tail _ _ _ h
    rw [List.flatMap_cons, List.flatMap_cons]
    by_cases h27 : b = STUFFING
    · subst h27
      show replace2 STUFFING 0x7F [START_TO_METER] (STUFFING :: xs.flatMap g3) = _
      rw [replace2_cons_of_ne _ _ _ _ _ (Or.inr (flatMap_head_ne g3
          (by right; right; right; left; rfl) 0x7F (by decide) xs
          (fun y ys hys => noPair_head _ _ _ _ (by rw [hys] at h; exact h) rfl))),
        ih htail]
      rfl
    by_cases h6 : b = ACK
    · subst h6
      show replace2 STUFFING 0x7F [START_TO_METER] (ACK :: xs.flatMap g3) = _
      rw [replace2_cons_of_ne _ _ _ _ _ (by left; decide), ih htail]; rfl
    by_cases h64 : b = START_FROM_METER
    · subst h64
      show replace2 STUFFING 0x7F [START_TO_METER]
        (START_FROM_METER :: xs.flatMap g3) = _
      rw [replace2_cons_of_ne _ _ _ _ _ (by left; decide), ih htail]; rfl
    by_cases h128 : b = START_TO_METER
    · subst h128
      show replace2 STUFFING 0x7F [START_TO_METER]
        (STUFFING :: 0x7F :: xs.flatMap g3) = _
      rw [replace2_pair, ih htail]; rfl
    by_cases h13 : b = STOP
    · subst h13
      show replace2 STUFFING 0x7F [START_TO_METER]
        (STUFFING :: 0xF2 :: xs.flatMap g3) = _
      rw [replace2_cons_of_ne _ _ _ _ _ (by simp),
        replace2_cons_of_ne _ _ _ _ _ (by left; decide), ih htail]
      rfl
    · have hb : g3 b = [b] := by simp [g3, h27, h6, h64, h128, h13]
      have hg : g4 b = [b] := by simp [g4, h27, h6, h64, h128, h13]
      rw [hb, hg, List.singleton_append, List.singleton_append,
        replace2_cons_of_ne _ _ _ _ _ (Or.inl h27), ih htail]

theorem pass5 (x : List Nat) (h : noPair 0xF2 x = true) :
    replace2 STUFFING 0xF2 [STOP] (x.flatMap g4) = x := by
  induction x with
  | nil => rfl
  | cons b xs ih =>
    have htail := noPair_tail _ _ _ h
    rw [List.flatMap_cons]
    by_cases h27 : b = STUFFING
    · subst h27
      show replace2 STUFFING 0xF2 [STOP] (STUFFING :: xs.flatMap g4) = _
      rw [replace2_cons_of_ne _ _ _ _ _ (Or.inr (flatMap_head_ne g4
          (by right; right; right; right; rfl) 0xF2 (by decide) xs
          (fun y ys hys => noPair_head _ _ _ _ (by rw [hys] at h; exact h) rfl))),
        ih htail]
    by_cases h6 : b = ACK
    · subst h6
      show replace2 STUFFING 0xF2 [STOP] (ACK :: xs.flatMap g4) = _
      rw [replace2_cons_of_ne _ _ _ _ _ (by left; decide), ih htail]
    by_cases h64 : b = START_FROM_METER
    · subst h64
      show replace2 STUFFING 0xF2 [STOP] (START_FROM_METER :: xs.flatMap g4) = _
      rw [replace2_cons_of_ne _ _ _ _ _ (by left; decide), ih htail]
    by_cases h128 : b = START_TO_METER
    · subst h128
      show replace2 STUFFING 0xF2 [STOP] (START_TO_METER :: xs.flatMap g4) = _
      rw [replace2_cons_of_ne _ _ _ _ _ (by left; decide), ih htail]
    by_cases h13 : b = STOP
    · subst h13
      show replace2 STUFFING 0xF2 [STOP] (STUFFING :: 0xF2 :: xs.flatMap g4) = _
      rw [replace2_pair, ih htail]; rfl
    · have hb : g4 b = [b] := by simp [g4, h27, h6, h64, h128, h13]
      rw [hb, List.singleton_append,
        replace2_cons_of_ne _ _ _ _ _ (Or.inl h27), ih htail]

/-- The destuffing passes undo the stuffing passes on stuffing-safe data. -/
theorem unstuff_stuff (x : List Nat) (h : stuffSafe x = true) :
    PhysicalCodec.unstuff (PhysicalCodec.stuff x) = x := by
  simp only [stuffSafe, Bool.and_eq_true] at h
  rw [stuff_eq_flatMap]
  show replace2 STUFFING 0xF2 [STOP]
    (replace2 STUFFING 0x7F [START_TO_METER]
      (replace2 STUFFING 0xBF [START_FROM_METER]
        (replace2 STUFFING 0xF9 [ACK]
          (replace2 STUFFING 0xE4 [STUFFING] (x.flatMap stuffByte))))) = x
  rw [pass1, pass2 x h.1.1.1, pass3 x h.1.1.2, pass4 x h.1.2, pass5 x h.2]

/-! ## Digit and byte-length lemmas -/

theorem decDigitsAux_eq (fuel : Nat) :
    ∀ m, m ≤ fuel → decDigitsAux fuel m = Nat.digits 10 m := by
  induction fuel with
  | zero =>
    intro m hm
    have : m = 0 := by omega
    subst this
    simp [decDigitsAux]
  | succ fuel ih =>
    intro m hm
    cases m with
    | zero => simp [decDigitsAux]
    | succ j =>
      have hdiv : (j + 1) / 10 ≤ fuel := by
        have := Nat.div_lt_self (Nat.succ_pos j) (by norm_num : 1 < 10)
        omega
      have hstep : decDigitsAux (fuel + 1) (j + 1) =
          (j + 1) % 10 :: decDigitsAux fuel ((j + 1) / 10) := rfl
      rw [hstep, ih _ hdiv, Nat.digits_def' (by norm_num : 1 < 10)
        (Nat.succ_pos j)]

theorem decDigits_eq (m : Nat) : decDigits m = Nat.digits 10 m :=
  decDigitsAux_eq m m le_rfl

theorem digitsToNat_aux (l : List Nat) :
    ∀ acc : Nat, l.foldl (fun a d => a * 10 + d) acc =
      acc * 10 ^ l.length + Nat.ofDigits 10 l.reverse := by
  induction l with
  | nil => intro acc; simp
  | cons d t ih =>
    intro acc
    rw [List.foldl_cons, ih, List.reverse_cons, Nat.ofDigits_append]
    simp only [Nat.ofDigits_cons, Nat.ofDigits_nil, List.length_reverse,
      List.length_cons]
    ring

theorem digitsToNat_eq_ofDigits (l : List Nat) :
    digitsToNat l = Nat.ofDigits 10 l.reverse := by
  simpa [digitsToNat] using digitsToNat_aux l 0

theorem digitsToNat_natDecDigits (m : Nat) : digitsToNat (natDecDigits m) = m := by
  by_cases h : m = 0
  · subst h; rfl
  · rw [natDecDigits, if_neg h, decDigits_eq, digitsToNat_eq_ofDigits,
      List.reverse_reverse, Nat.ofDigits_digits]

theorem bitLengthAux_le_iff (fuel : Nat) :
    ∀ m, m ≤ fuel → ∀ k, (bitLengthAux fuel m ≤ k ↔ m < 2 ^ k) := by
  induction fuel with
  | zero =>
    intro m hm k
    have : m = 0 := by omega
    subst this
    simp [bitLengthAux, Nat.pos_pow_of_pos]
  | succ fuel ih =>
    intro m hm k
    cases m with
    | zero =>
      simp [bitLengthAux]
    | succ j =>
      have hstep : bitLengthAux (fuel + 1) (j + 1) =
          bitLengthAux fuel ((j + 1) / 2) + 1 := rfl
      rw [hstep]
      cases k with
      | zero =>
        simp only [Nat.le_zero, pow_zero]
        constructor
        · intro h; omega
        · intro h; omega
      | succ k' =>
        have hdiv : (j + 1) / 2 ≤ fuel := by
          have := Nat.div_lt_self (Nat.succ_pos j) (by norm_num : 1 < 2)
          omega
        have h1 : bitLengthAux fuel ((j + 1) / 2) + 1 ≤ k' + 1 ↔
            bitLengthAux fuel ((j + 1) / 2) ≤ k' := by omega
        rw [h1, ih _ hdiv k', Nat.div_lt_iff_lt_mul (by norm_num : 0 < 2),
          ← pow_succ]

theorem bitLength_le_iff (m k : Nat) : bitLength m ≤ k ↔ m < 2 ^ k :=
  bitLengthAux_le_iff m m le_rfl k

theorem bytesNeeded_le_iff (m l : Nat) : bytesNeeded m ≤ l ↔ m < 256 ^ l := by
  rw [bytesNeeded]
  have h256 : (256 : Nat) ^ l = 2 ^ (8 * l) := by
    rw [show (256 : Nat) = 2 ^ 8 by norm_num, ← pow_mul]
  rw [h256, ← bitLength_le_iff]
  omega

theorem lt_256_pow_bytesNeeded (m : Nat) : m < 256 ^ bytesNeeded m :=
  (bytesNeeded_le_iff m _).mp le_rfl

theorem bytesNeeded_mono (m n : Nat) (h : m ≤ n) : bytesNeeded m ≤ bytesNeeded n :=
  (bytesNeeded_le_iff _ _).mpr (lt_of_le_of_lt h (lt_256_pow_bytesNeeded n))

theorem bytesNeeded_pos (m : Nat) (h : m ≠ 0) : 1 ≤ bytesNeeded m := by
  by_contra hc
  have h0 : bytesNeeded m ≤ 0 := by omega
  have := (bytesNeeded_le_iff m 0).mp h0
  simp at this
  omega

theorem natFromBytesBE_concat (l : List Nat) (b : Nat) :
    natFromBytesBE (l ++ [b]) = natFromBytesBE l * 256 + b := by
  simp [natFromBytesBE, List.foldl_append]

theorem natToBytesBE_length (len : Nat) :
    ∀ m, (natToBytesBE len m).length = len := by
  induction len with
  | zero => intro m; rfl
  | succ len ih => intro m; simp [natToBytesBE, ih]

theorem natFromBytesBE_natToBytesBE (len : Nat) :
    ∀ m, m < 256 ^ len → natFromBytesBE (natToBytesBE len m) = m := by
  induction len with
  | zero =>
    intro m hm
    simp only [pow_zero, Nat.lt_one_iff] at hm
    subst hm
    rfl
  | succ len ih =>
    intro m hm
    have hdiv : m / 256 < 256 ^ len := by
      rw [Nat.div_lt_iff_lt_mul (by norm_num : 0 < 256), ← pow_succ]
      exact hm
    rw [natToBytesBE, natFromBytesBE_concat, ih _ hdiv]
    omega

theorem natFromBytesBE_lt (l : List Nat) (h : ∀ b ∈ l, b < 256) :
    natFromBytesBE l < 256 ^ l.length := by
  induction l using List.reverseRecOn with
  | nil => simp [natFromBytesBE]
  | append_singleton t b ih =>
    rw [natFromBytesBE_concat]
    have hb : b < 256 := h b (by simp)
    have ht := ih (fun x hx => h x (by simp [hx]))
    have : t.length + 1 = (t ++ [b]).length := by simp
    rw [← this, pow_succ]
    nlinarith

/-! ## Sign/exponent byte and float decode lemmas -/

theorem seByte_props (s es : Bool) :
    ∀ a, a < 64 →
      ((((seByte s es a &&& 0x80) >>> 7) != 0) = s ∧
       (((seByte s es a &&& 0x40) >>> 6) != 0) = es ∧
       (seByte s es a &&& 0x3F) = a ∧ seByte s es a < 256) := by
  cases s <;> cases es <;> decide

theorem FloatCodec.decode_cons (l se : Nat) (mb : List Nat) (hl : l ≠ 0)
    (hlen : mb.length = l) :
    FloatCodec.decode (l :: se :: mb) = .ok
      ⟨((se &&& 0x80) >>> 7) != 0, natDecDigits (natFromBytesBE mb),
       if ((se &&& 0x40) >>> 6) != 0 then -((se &&& 0x3F : Nat) : Int)
       else ((se &&& 0x3F : Nat) : Int)⟩ := by
  have hne : ¬ ((se :: mb).length + 1 ≠ l + 2) := by simp [hlen]
  have htake : (mb.take l) = mb := by rw [← hlen, List.take_length]
  simp only [FloatCodec.decode, FloatCodec.decodeParts, if_neg hl, if_neg hne]
  by_cases hb : (se &&& 64) >>> 6 = 0 <;> simp [htake, hb, Except.map]

theorem FloatCodec.decode_ok_inv (data : List Nat) (d : PyDecimal)
    (h : FloatCodec.decode data = .ok d) :
    ∃ l se mb, data = l :: se :: mb ∧ l ≠ 0 ∧ mb.length = l ∧
      d = ⟨((se &&& 0x80) >>> 7) != 0, natDecDigits (natFromBytesBE mb),
           if ((se &&& 0x40) >>> 6) != 0 then -((se &&& 0x3F : Nat) : Int)
           else ((se &&& 0x3F : Nat) : Int)⟩ := by
  match data with
  | [] => simp [FloatCodec.decode, FloatCodec.decodeParts, Except.map] at h
  | [l] =>
    by_cases hl : l = 0
    · simp [FloatCodec.decode, FloatCodec.decodeParts, hl, Except.map] at h
    · have hne : (([] : List Nat).length + 1 ≠ l + 2) := by simp
      simp [FloatCodec.decode, FloatCodec.decodeParts, hl, hne, Except.map] at h
  | l :: se :: mb =>
    by_cases hl : l = 0
    · simp [FloatCodec.decode, FloatCodec.decodeParts, hl, Except.map] at h
    · by_cases hlen : mb.length = l
      · refine ⟨l, se, mb, rfl, hl, hlen, ?_⟩
        rw [FloatCodec.decode_cons l se mb hl hlen] at h
        exact (Except.ok.inj h).symm
      · simp [FloatCodec.decode, FloatCodec.decodeParts, hl, hlen,
          Except.map] at h

/-! ## Normalization lemmas -/

theorem ofDigits_dropWhile_zero (l : List Nat) :
    Nat.ofDigits 10 l =
      Nat.ofDigits 10 (l.dropWhile (fun x => x == 0)) *
        10 ^ (l.length - (l.dropWhile (fun x => x == 0)).length) := by
  induction l with
  | nil => simp
  | cons d t ih =>
    by_cases hd : d = 0
    · subst hd
      rw [List.dropWhile_cons_of_pos (by simp)]
      have hle : (t.dropWhile (fun x => x == 0)).length ≤ t.length :=
        (List.dropWhile_sublist _).length_le
      have hlen : (0 :: t).length - (t.dropWhile (fun x => x == 0)).length =
          (t.length - (t.dropWhile (fun x => x == 0)).length) + 1 := by
        simp only [List.length_cons]
        omega
      rw [Nat.ofDigits_cons, ih, hlen, pow_succ]
      ring
    · rw [List.dropWhile_cons_of_neg (by simp [hd])]
      simp

theorem dropWhile_zero_head (l : List Nat)
    (h : l.dropWhile (fun x => x == 0) ≠ []) :
    ∃ a t, l.dropWhile (fun x => x == 0) = a :: t ∧ a ≠ 0 := by
  induction l with
  | nil => simp at h
  | cons d t ih =>
    by_cases hd : d = 0
    · subst hd
      rw [List.dropWhile_cons_of_pos (by simp)] at h ⊢
      exact ih h
    · rw [List.dropWhile_cons_of_neg (by simp [hd])] at h ⊢
      exact ⟨d, t, rfl, hd⟩

theorem pyFix_of_le (m : Nat) (e : Int) (h : numDigits m ≤ DEFAULT_PREC) :
    pyFix m e = (m, e) := by
  rw [pyFix, if_pos h]

theorem pyNormalize_zero_case (d : PyDecimal)
    (h : digitsToNat d.digits = 0) :
    pyNormalize d = ⟨d.sign, [0], 0⟩ := by
  rw [pyNormalize, h, pyFix_of_le 0 d.exp (by decide)]
  rfl

theorem pyNormalize_nonzero_case (d : PyDecimal)
    (h28 : numDigits (digitsToNat d.digits) ≤ DEFAULT_PREC)
    (h0 : digitsToNat d.digits ≠ 0) :
    pyNormalize d = ⟨d.sign,
      ((natDecDigits (digitsToNat d.digits)).reverse.dropWhile
        (fun x => x == 0)).reverse,
      d.exp + (((natDecDigits (digitsToNat d.digits)).reverse.length -
        ((natDecDigits (digitsToNat d.digits)).reverse.dropWhile
          (fun x => x == 0)).length : Nat) : Int)⟩ := by
  rw [pyNormalize, pyFix_of_le _ _ h28,
    if_neg (show ¬ ((digitsToNat d.digits, d.exp)).1 = 0 from h0)]

theorem digitsToNat_zero_case (l : List Nat)
    (h : l.reverse.dropWhile (fun x => x == 0) = []) : digitsToNat l = 0 := by
  rw [digitsToNat_eq_ofDigits, ofDigits_dropWhile_zero l.reverse, h]
  simp

theorem digitsToNat_strip (l : List Nat) :
    digitsToNat l =
      digitsToNat ((l.reverse.dropWhile (fun x => x == 0)).reverse) *
        10 ^ (l.reverse.length - (l.reverse.dropWhile (fun x => x == 0)).length) := by
  rw [digitsToNat_eq_ofDigits, digitsToNat_eq_ofDigits, List.reverse_reverse,
    ofDigits_dropWhile_zero]

theorem pyNormalize_toRat (d : PyDecimal)
    (h28 : numDigits (digitsToNat d.digits) ≤ DEFAULT_PREC) :
    (pyNormalize d).toRat = d.toRat := by
  by_cases h0 : digitsToNat d.digits = 0
  · rw [pyNormalize_zero_case d h0]
    have h00 : digitsToNat [0] = 0 := rfl
    simp only [PyDecimal.toRat, h0, h00]
    simp
  · rw [pyNormalize_nonzero_case d h28 h0]
    simp only [PyDecimal.toRat]
    conv_rhs => rw [show digitsToNat d.digits =
        digitsToNat (natDecDigits (digitsToNat d.digits)) from
        (digitsToNat_natDecDigits _).symm,
      digitsToNat_strip (natDecDigits (digitsToNat d.digits))]
    push_cast
    rw [zpow_add₀ (by norm_num : (10 : ℚ) ≠ 0), zpow_natCast]
    ring

theorem toRat_mk (s : Bool) (m : Nat) (e : Int) :
    PyDecimal.toRat ⟨s, natDecDigits m, e⟩ =
      (if s then -1 else 1) * (m : ℚ) * (10 : ℚ) ^ e := by
  rw [PyDecimal.toRat]
  simp [digitsToNat_natDecDigits]

/-! ## Float encode lemmas -/

theorem FloatCodec.encodeRest_ok (negative : Bool) (exponent : Int)
    (mantissa len : Nat) (he : exponent.natAbs ≤ 63) (hlen : len ≤ 255) :
    FloatCodec.encodeRest negative exponent mantissa len =
      .ok (len :: seByte negative (decide (exponent < 0)) exponent.natAbs ::
        natToBytesBE len mantissa) := by
  rw [FloatCodec.encodeRest, if_neg (by omega), if_neg (by omega)]

theorem FloatCodec.encode_some_eq (v : PyDecimal) (L : Nat)
    (hfit : bytesNeeded (digitsToNat (pyNormalize v).digits) ≤ L) :
    FloatCodec.encode v (some L) = FloatCodec.encodeRest (pyNormalize v).sign
      (pyNormalize v).exp (digitsToNat (pyNormalize v).digits) L := by
  simp only [FloatCodec.encode]
  rw [if_neg (by omega)]

theorem FloatCodec.decode_encoded (negative : Bool) (exponent : Int)
    (mantissa len : Nat) (hm : mantissa < 256 ^ len) (hlen0 : len ≠ 0)
    (he : exponent.natAbs ≤ 63) :
    FloatCodec.decode (len :: seByte negative (decide (exponent < 0))
      exponent.natAbs :: natToBytesBE len mantissa) =
      .ok ⟨negative, natDecDigits mantissa, exponent⟩ := by
  have hp := seByte_props negative (decide (exponent < 0)) exponent.natAbs (by omega)
  rw [FloatCodec.decode_cons _ _ _ hlen0 (natToBytesBE_length len mantissa),
    natFromBytesBE_natToBytesBE len mantissa hm, hp.1, hp.2.1, hp.2.2.1]
  have hexp : (if decide (exponent < 0) then -(exponent.natAbs : Int)
      else (exponent.natAbs : Int)) = exponent := by
    by_cases hneg : exponent < 0
    · rw [if_pos (decide_eq_true hneg)]
      omega
    · rw [if_neg (by simp [hneg])]
      omega
  rw [hexp]

/-- Round-trip of the float codec through a fixed significand byte length:
encoding the normalized value and decoding it back preserves the rational
value exactly. -/
theorem float_roundtrip (v : PyDecimal) (L : Nat)
    (h28 : numDigits (digitsToNat v.digits) ≤ DEFAULT_PREC)
    (h1 : 1 ≤ L) (h255 : L ≤ 255)
    (hfit : bytesNeeded (digitsToNat (pyNormalize v).digits) ≤ L)
    (hexp : (pyNormalize v).exp.natAbs ≤ 63) :
    ∃ w, (FloatCodec.encode v (some L)).bind FloatCodec.decode = .ok w ∧
      w.toRat = v.toRat := by
  refine ⟨⟨(pyNormalize v).sign, natDecDigits (digitsToNat (pyNormalize v).digits),
    (pyNormalize v).exp⟩, ?_, ?_⟩
  · rw [FloatCodec.encode_some_eq v L hfit,
      FloatCodec.encodeRest_ok _ _ _ _ hexp h255]
    exact FloatCodec.decode_encoded _ _ _ _ ((bytesNeeded_le_iff _ _).mp hfit)
      (by omega) hexp
  · rw [toRat_mk, ← pyNormalize_toRat v h28, PyDecimal.toRat]

/-! ## Shortest-form lemmas -/

theorem FloatCodec.encode_none_eq (v : PyDecimal) :
    FloatCodec.encode v none = FloatCodec.encodeRest (pyNormalize v).sign
      (pyNormalize v).exp (digitsToNat (pyNormalize v).digits)
      (bytesNeeded (digitsToNat (pyNormalize v).digits)) := rfl

theorem toRat_mk_abs (s : Bool) (m : Nat) (e : Int) :
    |PyDecimal.toRat ⟨s, natDecDigits m, e⟩| = (m : ℚ) * (10 : ℚ) ^ e := by
  rw [toRat_mk]
  have hpos : (0 : ℚ) ≤ (m : ℚ) * (10 : ℚ) ^ e := by positivity
  have hneg : (-1 : ℚ) * (m : ℚ) * (10 : ℚ) ^ e = -((m : ℚ) * (10 : ℚ) ^ e) := by
    ring
  cases s
  · rw [if_neg (by simp)]
    rw [one_mul]
    exact abs_of_nonneg hpos
  · rw [if_pos rfl, hneg, abs_neg]
    exact abs_of_nonneg hpos

theorem value_eq_nat_rel (m1 m2 : Nat) (e1 e2 : Int)
    (he1 : -63 ≤ e1) (he2 : -63 ≤ e2)
    (h : (m1 : ℚ) * (10 : ℚ) ^ e1 = (m2 : ℚ) * (10 : ℚ) ^ e2) :
    m1 * 10 ^ (e1 + 63).toNat = m2 * 10 ^ (e2 + 63).toNat := by
  have h10 : (10 : ℚ) ≠ 0 := by norm_num
  have h1 : ((e1 + 63).toNat : Int) = e1 + 63 := by omega
  have h2 : ((e2 + 63).toNat : Int) = e2 + 63 := by omega
  have hq : (m1 : ℚ) * (10 : ℚ) ^ (((e1 + 63).toNat : Nat) : Int) =
      (m2 : ℚ) * (10 : ℚ) ^ (((e2 + 63).toNat : Nat) : Int) := by
    rw [h1, h2, zpow_add₀ h10, zpow_add₀ h10, ← mul_assoc, ← mul_assoc, h]
  rw [zpow_natCast, zpow_natCast] at hq
  exact_mod_cast hq

theorem stripped_le (m1 m2 a1 a2 : Nat) (hm1 : m1 % 10 ≠ 0)
    (h : m1 * 10 ^ a1 = m2 * 10 ^ a2) : m1 ≤ m2 := by
  rcases le_or_lt a2 a1 with hle | hlt
  · have heq : m1 * 10 ^ (a1 - a2) * 10 ^ a2 = m2 * 10 ^ a2 := by
      rw [mul_assoc, ← pow_add, show a1 - a2 + a2 = a1 by omega]
      exact h
    have h2 : m1 * 10 ^ (a1 - a2) = m2 :=
      Nat.eq_of_mul_eq_mul_right (by positivity) heq
    calc m1 ≤ m1 * 10 ^ (a1 - a2) :=
          Nat.le_mul_of_pos_right _ (by positivity)
      _ = m2 := h2
  · exfalso
    have heq : m2 * 10 ^ (a2 - a1) * 10 ^ a1 = m1 * 10 ^ a1 := by
      rw [mul_assoc, ← pow_add, show a2 - a1 + a1 = a2 by omega]
      exact h.symm
    have h2 : m2 * 10 ^ (a2 - a1) = m1 :=
      Nat.eq_of_mul_eq_mul_right (by positivity) heq
    have hd : 10 ∣ m1 := by
      have hk : a2 - a1 - 1 + 1 = a2 - a1 := by omega
      refine ⟨m2 * 10 ^ (a2 - a1 - 1), ?_⟩
      calc m1 = m2 * 10 ^ (a2 - a1) := h2.symm
        _ = m2 * (10 ^ (a2 - a1 - 1) * 10) := by rw [← pow_succ, hk]
        _ = 10 * (m2 * 10 ^ (a2 - a1 - 1)) := by ring
    omega

theorem natDecDigits_strip_ne_nil (m : Nat) (hm : m ≠ 0) :
    (natDecDigits m).reverse.dropWhile (fun x => x == 0) ≠ [] := by
  rw [natDecDigits, if_neg hm, List.reverse_reverse, decDigits_eq]
  intro hcon
  rw [List.dropWhile_eq_nil_iff] at hcon
  have hnil : Nat.digits 10 m ≠ [] := by
    simp [Nat.digits_ne_nil_iff_ne_zero, hm]
  have hlast := Nat.getLast_digit_ne_zero 10 hm
  have hmem : (Nat.digits 10 m).getLast hnil ∈ Nat.digits 10 m :=
    List.getLast_mem hnil
  have := hcon _ hmem
  simp at this
  exact hlast this

theorem normalized_mantissa_mod (m : Nat) (hm : m ≠ 0)
    (h28 : numDigits m ≤ DEFAULT_PREC) (s : Bool) (e : Int) :
    digitsToNat (pyNormalize ⟨s, natDecDigits m, e⟩).digits % 10 ≠ 0 := by
  have hval : digitsToNat ((⟨s, natDecDigits m, e⟩ : PyDecimal)).digits = m :=
    digitsToNat_natDecDigits m
  have h28d : numDigits (digitsToNat
      ((⟨s, natDecDigits m, e⟩ : PyDecimal)).digits) ≤ DEFAULT_PREC := by
    rw [hval]
    exact h28
  have h0d : digitsToNat ((⟨s, natDecDigits m, e⟩ : PyDecimal)).digits ≠ 0 := by
    rw [hval]
    exact hm
  rw [pyNormalize_nonzero_case _ h28d h0d]
  have hne : (natDecDigits m).reverse.dropWhile (fun x => x == 0) ≠ [] :=
    natDecDigits_strip_ne_nil m hm
  obtain ⟨a, t, hstr, ha⟩ := dropWhile_zero_head _ hne
  show digitsToNat ((natDecDigits (digitsToNat
      ((⟨s, natDecDigits m, e⟩ : PyDecimal)).digits)).reverse.dropWhile
      (fun x => x == 0)).reverse % 10 ≠ 0
  rw [hval, digitsToNat_eq_ofDigits, List.reverse_reverse, hstr,
    Nat.ofDigits_cons]
  have hmem : a ∈ Nat.digits 10 m := by
    have hsub : (natDecDigits m).reverse.dropWhile (fun x => x == 0) ⊆
        (natDecDigits m).reverse :=
      (List.dropWhile_sublist _).subset
    have hmem0 : a ∈ (natDecDigits m).reverse :=
      hsub (by rw [hstr]; exact List.mem_cons_self a t)
    have hrev : (natDecDigits m).reverse = Nat.digits 10 m := by
      rw [natDecDigits, if_neg hm, List.reverse_reverse, decDigits_eq]
    rwa [hrev] at hmem0
  have ha10 : a < 10 := Nat.digits_lt_base (by norm_num) hmem
  omega

theorem decoded_exp_bounds (se : Nat) :
    -63 ≤ (if ((se &&& 0x40) >>> 6) != 0 then -((se &&& 0x3F : Nat) : Int)
           else ((se &&& 0x3F : Nat) : Int)) ∧
    (if ((se &&& 0x40) >>> 6) != 0 then -((se &&& 0x3F : Nat) : Int)
     else ((se &&& 0x3F : Nat) : Int)) ≤ 63 := by
  have hc : (se &&& 63 : Nat) ≤ 63 := Nat.and_le_right
  constructor <;> split <;> omega

theorem pyNormalize_exp_ge (d : PyDecimal)
    (h28 : numDigits (digitsToNat d.digits) ≤ DEFAULT_PREC)
    (h0 : digitsToNat d.digits ≠ 0) :
    d.exp ≤ (pyNormalize d).exp := by
  rw [pyNormalize_nonzero_case d h28 h0]
  show d.exp ≤ d.exp +
    (((natDecDigits (digitsToNat d.digits)).reverse.length -
      ((natDecDigits (digitsToNat d.digits)).reverse.dropWhile
        (fun x => x == 0)).length : Nat) : Int)
  omega

theorem normMantissa_le (d : PyDecimal)
    (h28 : numDigits (digitsToNat d.digits) ≤ DEFAULT_PREC) :
    normMantissa d ≤ digitsToNat d.digits := by
  by_cases h0 : digitsToNat d.digits = 0
  · rw [normMantissa, pyNormalize_zero_case d h0, h0]
    exact le_rfl
  · rw [normMantissa, pyNormalize_nonzero_case d h28 h0]
    show digitsToNat ((natDecDigits (digitsToNat d.digits)).reverse.dropWhile
      (fun x => x == 0)).reverse ≤ _
    conv_rhs => rw [show digitsToNat d.digits =
        digitsToNat (natDecDigits (digitsToNat d.digits)) from
        (digitsToNat_natDecDigits _).symm,
      digitsToNat_strip (natDecDigits (digitsToNat d.digits))]
    exact Nat.le_mul_of_pos_right _ (by positivity)

/-- Shortest-form re-encoding: for any accepted float byte sequence whose
mantissa is non-zero and whose normalized exponent stays within the
encodable range, re-encoding the decoded value with no fixed significand
length succeeds, decodes back to the same rational value, and its output is
no longer than any accepted byte sequence decoding to that value. -/
theorem float_shortest_form (data : List Nat) (d : PyDecimal)
    (hbytes : ∀ b ∈ data, b < 256)
    (hdec : FloatCodec.decode data = .ok d)
    (hm0 : digitsToNat d.digits ≠ 0)
    (h28 : numDigits (digitsToNat d.digits) ≤ DEFAULT_PREC)
    (hexp : (pyNormalize d).exp ≤ 63) :
    ∃ out d2, FloatCodec.encode d none = .ok out ∧
      FloatCodec.decode out = .ok d2 ∧ d2.toRat = d.toRat ∧
      ∀ data2 e2, (∀ b ∈ data2, b < 256) → FloatCodec.decode data2 = .ok e2 →
        e2.toRat = d.toRat → out.length ≤ data2.length := by
  obtain ⟨l, se, mb, hdata, hl, hlen, hd⟩ := FloatCodec.decode_ok_inv data d hdec
  subst hdata
  subst hd
  have hm : natFromBytesBE mb ≠ 0 := by
    intro hc
    apply hm0
    show digitsToNat (natDecDigits (natFromBytesBE mb)) = 0
    rw [digitsToNat_natDecDigits, hc]
  -- shorthand names
  set S : Bool := ((se &&& 0x80) >>> 7) != 0 with hS
  set E : Int := (if ((se &&& 0x40) >>> 6) != 0 then -((se &&& 0x3F : Nat) : Int)
      else ((se &&& 0x3F : Nat) : Int)) with hE
  set d0 : PyDecimal := ⟨S, natDecDigits (natFromBytesBE mb), E⟩ with hd0
  have hEb := decoded_exp_bounds se
  rw [← hE] at hEb
  have hval0 : digitsToNat d0.digits = natFromBytesBE mb :=
    digitsToNat_natDecDigits _
  have h28d0 : numDigits (digitsToNat d0.digits) ≤ DEFAULT_PREC := h28
  have h28m : numDigits (natFromBytesBE mb) ≤ DEFAULT_PREC := by
    rw [← hval0]
    exact h28d0
  have h0d0 : digitsToNat d0.digits ≠ 0 := by
    rw [hval0]
    exact hm
  -- mantissa facts
  have hmod : normMantissa d0 % 10 ≠ 0 :=
    normalized_mantissa_mod (natFromBytesBE mb) hm h28m S E
  have hm'0 : normMantissa d0 ≠ 0 := by
    intro hc
    apply hmod
    rw [hc]
  have hm'le : normMantissa d0 ≤ natFromBytesBE mb := by
    have := normMantissa_le d0 h28d0
    rwa [hval0] at this
  -- byte bounds
  have hl255 : l ≤ 255 := by
    have := hbytes l (by simp)
    omega
  have hmbbytes : ∀ b ∈ mb, b < 256 := by
    intro b hb
    exact hbytes b (by simp [hb])
  have hmlt : natFromBytesBE mb < 256 ^ l := by
    rw [← hlen]
    exact natFromBytesBE_lt mb hmbbytes
  have hbn : bytesNeeded (normMantissa d0) ≤ 255 :=
    le_trans (le_trans (bytesNeeded_mono _ _ hm'le)
      ((bytesNeeded_le_iff _ _).mpr hmlt)) hl255
  have hbn1 : 1 ≤ bytesNeeded (normMantissa d0) := bytesNeeded_pos _ hm'0
  -- exponent bounds of the normalized value
  have hexp_lb : -63 ≤ (pyNormalize d0).exp :=
    le_trans hEb.1 (pyNormalize_exp_ge d0 h28d0 h0d0)
  have hexp_abs : (pyNormalize d0).exp.natAbs ≤ 63 := by omega
  -- encode
  have henc : FloatCodec.encode d0 none =
      .ok (bytesNeeded (normMantissa d0) ::
        seByte (pyNormalize d0).sign (decide ((pyNormalize d0).exp < 0))
          (pyNormalize d0).exp.natAbs ::
        natToBytesBE (bytesNeeded (normMantissa d0)) (normMantissa d0)) := by
    rw [FloatCodec.encode_none_eq]
    exact FloatCodec.encodeRest_ok _ _ _ _ hexp_abs hbn
  have hdecout : FloatCodec.decode (bytesNeeded (normMantissa d0) ::
      seByte (pyNormalize d0).sign (decide ((pyNormalize d0).exp < 0))
        (pyNormalize d0).exp.natAbs ::
      natToBytesBE (bytesNeeded (normMantissa d0)) (normMantissa d0)) =
      .ok ⟨(pyNormalize d0).sign, natDecDigits (normMantissa d0),
        (pyNormalize d0).exp⟩ :=
    FloatCodec.decode_encoded _ _ _ _ (lt_256_pow_bytesNeeded _) (by omega)
      hexp_abs
  refine ⟨_, _, henc, hdecout, ?_, ?_⟩
  · rw [toRat_mk, ← pyNormalize_toRat d0 h28d0]
    rfl
  · intro data2 e2 hb2 hdec2 hval
    obtain ⟨l2, se2, mb2, hdata2, hl2, hlen2, he2⟩ :=
      FloatCodec.decode_ok_inv data2 e2 hdec2
    subst hdata2
    subst he2
    have hEb2 := decoded_exp_bounds se2
    -- value of the re-encoded form equals the decoded value
    have hval2 : PyDecimal.toRat ⟨(pyNormalize d0).sign,
        natDecDigits (normMantissa d0), (pyNormalize d0).exp⟩ =
        PyDecimal.toRat d0 := by
      rw [toRat_mk, ← pyNormalize_toRat d0 h28d0]
      rfl
    have habs : (natFromBytesBE mb2 : ℚ) * (10 : ℚ) ^
        (if ((se2 &&& 0x40) >>> 6) != 0 then -((se2 &&& 0x3F : Nat) : Int)
         else ((se2 &&& 0x3F : Nat) : Int)) =
        (normMantissa d0 : ℚ) * (10 : ℚ) ^ (pyNormalize d0).exp := by
      rw [← toRat_mk_abs, ← toRat_mk_abs ((pyNormalize d0).sign)]
      rw [hval2]
      rw [hval]
    have hnat := value_eq_nat_rel _ _ _ _ hEb2.1 hexp_lb habs
    have hle : normMantissa d0 ≤ natFromBytesBE mb2 :=
      stripped_le _ _ _ _ hmod hnat.symm
    have hm2lt : natFromBytesBE mb2 < 256 ^ l2 := by
      rw [← hlen2]
      exact natFromBytesBE_lt mb2 (fun b hb => hb2 b (by simp [hb]))
    have hbnle : bytesNeeded (normMantissa d0) ≤ l2 :=
      le_trans (bytesNeeded_mono _ _ hle) ((bytesNeeded_le_iff _ _).mpr hm2lt)
    simp only [List.length_cons, natToBytesBE_length]
    omega

/-! ## GetRegister response loop lemmas -/

theorem decodeOne_short (raw : List Nat) (h6 : raw.length < 6) :
    GetRegisterResponse.decodeOneRegisterValue raw =
      .error (.dataLengthUnexpected "Data to decode register data" raw.length
        (some 6) true) := by
  simp [GetRegisterResponse.decodeOneRegisterValue, h6]

theorem decodeOne_ok_inv (raw : List Nat) (d : RegisterData) (rest : List Nat)
    (w : Nat)
    (h : GetRegisterResponse.decodeOneRegisterValue raw = .ok (d, rest, w)) :
    6 ≤ raw.length ∧ rest = raw.drop (4 + (raw.getD 3 0 + 1)) ∧
      w = (if 0 < (raw.drop (4 + (raw.getD 3 0 + 1))).length ∧
        (raw.drop (4 + (raw.getD 3 0 + 1))).length < 6 then 1 else 0) := by
  by_cases h6 : raw.length < 6
  · rw [GetRegisterResponse.decodeOneRegisterValue, if_pos h6] at h
    exact Except.noConfusion h
  · by_cases h9 : raw.length < 4 + (raw.getD 3 0 + 1)
    · rw [GetRegisterResponse.decodeOneRegisterValue, if_neg h6, if_pos h9] at h
      exact Except.noConfusion h
    · simp only [GetRegisterResponse.decodeOneRegisterValue, if_neg h6, if_neg h9,
        Except.ok.injEq, Prod.mk.injEq] at h
      exact ⟨by omega, h.2.1.symm, h.2.2.symm⟩

theorem decodeLoop_nil (fuel : Nat) (regs : List (Nat × RegisterData))
    (warns : Nat) :
    GetRegisterResponse.decodeLoop fuel [] regs warns = .ok (regs, warns) := by
  cases fuel <;> rfl

theorem decodeLoop_cons (fuel b : Nat) (t : List Nat)
    (regs : List (Nat × RegisterData)) (warns : Nat) (d : RegisterData)
    (rest : List Nat) (w : Nat)
    (h : GetRegisterResponse.decodeOneRegisterValue (b :: t) = .ok (d, rest, w)) :
    GetRegisterResponse.decodeLoop (fuel + 1) (b :: t) regs warns =
      GetRegisterResponse.decodeLoop fuel rest (upsert regs d.id_ d)
        (warns + w + (if (regs.lookup d.id_).isSome then 1 else 0)) := by
  rw [GetRegisterResponse.decodeLoop, h]

theorem decodeLoop_cons_err (fuel b : Nat) (t : List Nat)
    (regs : List (Nat × RegisterData)) (warns : Nat) (e : CodecError)
    (h : GetRegisterResponse.decodeOneRegisterValue (b :: t) = .error e) :
    GetRegisterResponse.decodeLoop (fuel + 1) (b :: t) regs warns = .error e := by
  rw [GetRegisterResponse.decodeLoop, h]

/-- A well-formed record followed by a short non-empty fragment: the record
decoder emits the warning diagnostic, but the decode loop then fails on the
fragment with a length error. -/
theorem getRegister_trailing_fragment (raw : List Nat) (d : RegisterData)
    (rest : List Nat) (w : Nat)
    (h : GetRegisterResponse.decodeOneRegisterValue raw = .ok (d, rest, w))
    (h0 : 0 < rest.length) (h6 : rest.length < 6) :
    w = 1 ∧ GetRegisterResponse.decode 0x10 raw =
      .error (.dataLengthUnexpected "Data to decode register data" rest.length
        (some 6) true) := by
  obtain ⟨hraw6, hrest, hw⟩ := decodeOne_ok_inv raw d rest w h
  have hw1 : w = 1 := by
    rw [hw, if_pos]
    rw [← hrest]
    exact ⟨h0, h6⟩
  refine ⟨hw1, ?_⟩
  rw [GetRegisterResponse.decode, if_neg (by decide)]
  cases raw with
  | nil => simp at hraw6
  | cons b t =>
    have hlt : (b :: t).length = t.length + 1 := rfl
    rw [hlt, decodeLoop_cons t.length b t [] 0 d rest w h]
    have hrestlen : rest.length + 4 ≤ t.length := by
      rw [hrest]
      simp only [List.length_drop]
      simp at hraw6 hlt ⊢
      omega
    cases rest with
    | nil => simp at h0
    | cons c t2 =>
      obtain ⟨k, hk⟩ : ∃ k, t.length = k + 1 := by
        refine ⟨t.length - 1, ?_⟩
        simp at hrestlen
        omega
      rw [hk, decodeLoop_cons_err k c t2 _ _ _ (decodeOne_short (c :: t2) h6)]

/-- Two records covering the whole payload with the same register ID: the
loop succeeds, the second record overwrites the first (one mapping entry),
and exactly one duplicate diagnostic is added to the record warnings. -/
theorem getRegister_duplicate (raw : List Nat) (d1 : RegisterData)
    (rest : List Nat) (w1 : Nat) (d2 : RegisterData) (w2 : Nat)
    (h1 : GetRegisterResponse.decodeOneRegisterValue raw = .ok (d1, rest, w1))
    (h2 : GetRegisterResponse.decodeOneRegisterValue rest = .ok (d2, [], w2))
    (hid : d1.id_ = d2.id_) :
    GetRegisterResponse.decode 0x10 raw = .ok ([(d2.id_, d2)], w1 + w2 + 1) := by
  obtain ⟨hraw6, hrest, -⟩ := decodeOne_ok_inv raw d1 rest w1 h1
  obtain ⟨hrest6, -, -⟩ := decodeOne_ok_inv rest d2 [] w2 h2
  rw [GetRegisterResponse.decode, if_neg (by decide)]
  cases raw with
  | nil => simp at hraw6
  | cons b t =>
    have hlt : (b :: t).length = t.length + 1 := rfl
    rw [hlt, decodeLoop_cons t.length b t [] 0 d1 rest w1 h1]
    have hrestlen : rest.length + 4 ≤ t.length := by
      rw [hrest]
      simp only [List.length_drop]
      simp at hraw6 hlt ⊢
      omega
    cases rest with
    | nil => simp at hrest6
    | cons c t2 =>
      obtain ⟨k, hk⟩ : ∃ k, t.length = k + 1 := by
        refine ⟨t.length - 1, ?_⟩
        simp at hrestlen
        omega
      rw [hk, decodeLoop_cons k c t2 _ _ d2 [] w2 h2]
      have hlook : (upsert [] d1.id_ d1).lookup d2.id_ = some d1 := by
        simp [upsert, List.lookup, hid]
      have hup : upsert (upsert [] d1.id_ d1) d2.id_ d2 = [(d2.id_, d2)] := by
        simp [upsert, hid]
      rw [decodeLoop_nil, hlook, hup]
      norm_num

/-! ## Physical layer roundtrip -/

theorem physical_roundtrip (dir : PhysicalDirection) (x : List Nat) (hx : x ≠ [])
    (hsafe : stuffSafe x = true) :
    (PhysicalCodec.encode dir x).bind (PhysicalCodec.decode dir) = .ok x := by
  rw [PhysicalCodec.encode, if_neg hx]
  show PhysicalCodec.decode dir
    (PhysicalCodec.startByte dir :: PhysicalCodec.stuff x ++ [STOP]) = .ok x
  set f := PhysicalCodec.startByte dir :: PhysicalCodec.stuff x ++ [STOP] with hf
  have h1 : ¬ f = [] := by simp [hf]
  have h2 : ¬ f = [ACK] := by
    rw [hf]
    intro hc
    have hlc := congrArg List.length hc
    simp at hlc
  have h3 : ¬ f.head? ≠ some (PhysicalCodec.startByte dir) := by simp [hf]
  have h4 : ¬ f.getLast? ≠ some STOP := by
    rw [hf]
    have hshape : PhysicalCodec.startByte dir :: (PhysicalCodec.stuff x ++ [STOP]) =
        (PhysicalCodec.startByte dir :: PhysicalCodec.stuff x) ++ [STOP] := by
      simp
    simp only [hshape, List.getLast?_concat]
    simp
  have h5 : (f.drop 1).dropLast = PhysicalCodec.stuff x := by
    rw [hf]
    show (PhysicalCodec.stuff x ++ [STOP]).dropLast = _
    exact List.dropLast_concat
  rw [PhysicalCodec.decode, if_neg h1, if_neg h2, if_neg h3, if_neg h4, h5,
    unstuff_stuff x hsafe]

/-- Claim C1, counterexample: encoding the byte sequence `1B F9` and decoding
the resulting frame yields `06`, not the original bytes - the destuffing pass
for `0x06` collapses the already-destuffed `0x1B` with the literal `0xF9`
that follows it, so the byte-stuffing symmetry does not hold for every byte
sequence. -/
theorem C1_counterexample :
    PhysicalCodec.encode .TO_METER [0x1B, 0xF9] =
      .ok [0x80, 0x1B, 0xE4, 0xF9, 0x0D] ∧
    PhysicalCodec.decode .TO_METER [0x80, 0x1B, 0xE4, 0xF9, 0x0D] =
      .ok [0x06] ∧
    ([0x06] : List Nat) ≠ [0x1B, 0xF9] := by decide

/-- Claim C1, amended: for a PhysicalCodec of either direction and every
non-empty byte sequence in which no `0x1B` byte is immediately followed by
one of the four escape tails `0xF9`, `0xBF`, `0x7F`, `0xF2` (the XOR-0xFF
complements of `0x06`, `0x40`, `0x80`, `0x0D`), decoding the result of
encoding returns the sequence unchanged. -/
theorem C1_roundtrip_stuffSafe (dir : PhysicalDirection) (x : List Nat)
    (hx : x ≠ []) (hsafe : stuffSafe x = true) (hbytes : ∀ b ∈ x, b < 256) :
    (PhysicalCodec.encode dir x).bind (PhysicalCodec.decode dir) = .ok x :=
  physical_roundtrip dir x hx hsafe

/-- Claim C1 witness: a sequence containing all five special byte values
roundtrips through the physical codec. -/
theorem C1_roundtrip_stuffSafe_witness :
    (PhysicalCodec.encode .TO_METER [0x1B, 0x06, 0x40, 0x80, 0x0D, 0x64]).bind
      (PhysicalCodec.decode .TO_METER) =
      .ok [0x1B, 0x06, 0x40, 0x80, 0x0D, 0x64] :=
  C1_roundtrip_stuffSafe .TO_METER [0x1B, 0x06, 0x40, 0x80, 0x0D, 0x64]
    (by decide) (by decide) (by decide)

/-- Claim C2, counterexample: the decimal `10E63` (sign 0, digits `1,0`,
exponent `63`) satisfies the claim's hypotheses - its exponent magnitude is
at most 63 and its mantissa `10` fits one significand byte - yet encoding
fails: `normalize()` strips the trailing zero digit, pushing the exponent to
`64`, which is out of range. -/
theorem C2_counterexample :
    (FloatCodec.encode ⟨false, [1, 0], 63⟩ (some 1)).bind FloatCodec.decode =
      .error (.outOfRange "Exponent to encode" (none, some 63) 64) ∧
    bytesNeeded (digitsToNat [1, 0]) ≤ 1 ∧ (63 : Int).natAbs ≤ 63 := by decide

/-- Claim C2, amended: for every decimal value whose coefficient has at
most 28 significant digits (the default decimal context precision, within
which `normalize()` performs no rounding), whose normalized form has an
exponent of magnitude at most 63, and whose normalized mantissa fits the
chosen significand byte length L (with 1 ≤ L ≤ 255), decoding the encoding
yields a decimal with exactly the same rational value - no precision
loss. -/
theorem C2_roundtrip_normalized (v : PyDecimal) (L : Nat)
    (h28 : numDigits (digitsToNat v.digits) ≤ DEFAULT_PREC)
    (h1 : 1 ≤ L) (h255 : L ≤ 255) (hfit : bytesNeeded (normMantissa v) ≤ L)
    (hexp : (pyNormalize v).exp.natAbs ≤ 63) :
    ∃ w, (FloatCodec.encode v (some L)).bind FloatCodec.decode = .ok w ∧
      w.toRat = v.toRat :=
  float_roundtrip v L h28 h1 h255 hfit hexp

/-- Claim C2 witness: `0.251` roundtrips exactly through a 4-byte
significand. -/
theorem C2_roundtrip_normalized_witness :
    ∃ w, (FloatCodec.encode ⟨false, [2, 5, 1], -3⟩ (some 4)).bind
      FloatCodec.decode = .ok w ∧
      w.toRat = PyDecimal.toRat ⟨false, [2, 5, 1], -3⟩ :=
  C2_roundtrip_normalized ⟨false, [2, 5, 1], -3⟩ 4 (by decide) (by decide)
    (by decide) (by decide) (by decide)

/-- Claim C3: for every DataLinkData with a one-byte destination address and
non-empty application bytes, decoding the encoding succeeds and returns the
original destination address and application bytes, with `crc_value` equal
to the 16-bit checksum that encode appended. -/
theorem C3_dataLink_roundtrip (d : DataLinkData)
    (ha : d.destination_address < 256) (happ : d.application_bytes ≠ [])
    (hbytes : ∀ b ∈ d.application_bytes, b < 256) :
    ∃ enc, DataLinkCodec.encode d = .ok enc ∧
      DataLinkCodec.decode enc = .ok ⟨d.destination_address,
        d.application_bytes,
        some (crc16 (d.destination_address :: d.application_bytes))⟩ := by
  obtain ⟨h1, h2⟩ := dataLink_decode_encode d.destination_address
    d.application_bytes d.crc_value ha happ
  exact ⟨_, h1, h2⟩

/-- Claim C3 witness: the GetSerialNo response example roundtrips, with the
appended checksum `0xE956`. -/
theorem C3_dataLink_roundtrip_witness :
    ∃ enc, DataLinkCodec.encode
        ⟨0x3F, [0x02, 0x01, 0x23, 0x45, 0x67], none⟩ = .ok enc ∧
      DataLinkCodec.decode enc = .ok ⟨0x3F, [0x02, 0x01, 0x23, 0x45, 0x67],
        some (crc16 (0x3F :: [0x02, 0x01, 0x23, 0x45, 0x67]))⟩ :=
  C3_dataLink_roundtrip ⟨0x3F, [0x02, 0x01, 0x23, 0x45, 0x67], none⟩
    (by decide) (by decide) (by decide)

/-- Claim C4, counterexample: the accepted byte sequence `01 00 00` decodes
to zero, but re-encoding zero with no fixed significand length produces the
two-byte form `00 00` with a zero length byte - which `decode` rejects, so
the minimal form does not decode back to the original value. -/
theorem C4_counterexample :
    FloatCodec.decode [0x01, 0x00, 0x00] = .ok ⟨false, [0], 0⟩ ∧
    FloatCodec.encode ⟨false, [0], 0⟩ none = .ok [0x00, 0x00] ∧
    FloatCodec.decode [0x00, 0x00] = .error (.outOfRange
      "Integer length byte value for floating point data decoding"
      (some 1, none) 0) := by decide

/-- Claim C4, amended: for every accepted float byte sequence whose mantissa
is non-zero, has at most 28 significant decimal digits (the default decimal
context precision, within which `normalize()` performs no rounding), and
whose normalized exponent does not exceed 63, re-encoding the decoded value
with `significand_num_bytes=None` succeeds, produces a byte form no longer
than any accepted byte form of the same value, and decoding that form
yields the same decimal value. -/
theorem C4_shortest_form (data : List Nat) (d : PyDecimal)
    (hbytes : ∀ b ∈ data, b < 256) (hdec : FloatCodec.decode data = .ok d)
    (hm : digitsToNat d.digits ≠ 0)
    (h28 : numDigits (digitsToNat d.digits) ≤ DEFAULT_PREC)
    (hexp : (pyNormalize d).exp ≤ 63) :
    ∃ out d2, FloatCodec.encode d none = .ok out ∧
      FloatCodec.decode out = .ok d2 ∧ d2.toRat = d.toRat ∧
      ∀ data2 e2, (∀ b ∈ data2, b < 256) → FloatCodec.decode data2 = .ok e2 →
        e2.toRat = d.toRat → out.length ≤ data2.length :=
  float_shortest_form data d hbytes hdec hm h28 hexp

/-- Claim C4 witness: re-encoding the decoded value of
`04 43 00 00 00 FB` (0.251) in shortest form. -/
theorem C4_shortest_form_witness :
    ∃ out d2, FloatCodec.encode ⟨false, [2, 5, 1], -3⟩ none = .ok out ∧
      FloatCodec.decode out = .ok d2 ∧
      d2.toRat = PyDecimal.toRat ⟨false, [2, 5, 1], -3⟩ ∧
      ∀ data2 e2, (∀ b ∈ data2, b < 256) → FloatCodec.decode data2 = .ok e2 →
        e2.toRat = PyDecimal.toRat ⟨false, [2, 5, 1], -3⟩ →
        out.length ≤ data2.length :=
  C4_shortest_form [0x04, 0x43, 0x00, 0x00, 0x00, 0xFB] ⟨false, [2, 5, 1], -3⟩
    (by decide) (by decide) (by decide) (by decide) (by decide)

/-- Claim C5, counterexample: a well-formed record followed by one leftover
byte makes `GetRegisterResponse.decode` fail with a length error - the
malformed trailing fragment is not merely a diagnostic. -/
theorem C5_counterexample :
    GetRegisterResponse.decode 0x10
      [0x00, 0x80, 0x16, 0x04, 0x11, 0x01, 0x2A, 0xF0, 0x24, 0x00] =
      .error (.dataLengthUnexpected "Data to decode register data" 1 (some 6)
        true) := by decide

/-- Claim C5, amended: when decoding one well-formed register record leaves
a non-empty fragment shorter than a minimal record, the record decoder does
emit the warning diagnostic, but `GetRegisterResponse.decode` then fails on
the fragment with a `DataLengthUnexpectedError`. -/
theorem C5_trailing_fragment (raw : List Nat) (d : RegisterData)
    (rest : List Nat) (w : Nat)
    (h : GetRegisterResponse.decodeOneRegisterValue raw = .ok (d, rest, w))
    (h0 : 0 < rest.length) (h6 : rest.length < 6) :
    w = 1 ∧ GetRegisterResponse.decode 0x10 raw =
      .error (.dataLengthUnexpected "Data to decode register data" rest.length
        (some 6) true) :=
  getRegister_trailing_fragment raw d rest w h h0 h6

/-- Claim C5 witness: the Kamstrup example record followed by one stray
byte. -/
theorem C5_trailing_fragment_witness :
    (1 : Nat) = 1 ∧ GetRegisterResponse.decode 0x10
      [0x00, 0x80, 0x16, 0x04, 0x11, 0x01, 0x2A, 0xF0, 0x24, 0x00] =
      .error (.dataLengthUnexpected "Data to decode register data" 1 (some 6)
        true) :=
  C5_trailing_fragment
    [0x00, 0x80, 0x16, 0x04, 0x11, 0x01, 0x2A, 0xF0, 0x24, 0x00]
    ⟨128, 0x16, [0x04, 0x11, 0x01, 0x2A, 0xF0, 0x24]⟩ [0x00] 1 (by decide)
    (by decide) (by decide)

/-- Claim C6: decoding the data-link bytes `3F 02 01 23 45 67 E9 56` yields
address `0x3F`, application bytes `02 01 23 45 67` and checksum `0xE956`;
the Kamstrup CRC-16 (poly 0x1021, init 0, no reflection, no final XOR) over
the first six bytes is `0xE956`, and over all eight bytes is zero. -/
theorem C6_crc_scenario :
    DataLinkCodec.decode [0x3F, 0x02, 0x01, 0x23, 0x45, 0x67, 0xE9, 0x56] =
      .ok ⟨0x3F, [0x02, 0x01, 0x23, 0x45, 0x67], some 0xE956⟩ ∧
    crc16 [0x3F, 0x02, 0x01, 0x23, 0x45, 0x67] = 0xE956 ∧
    crc16 [0x3F, 0x02, 0x01, 0x23, 0x45, 0x67, 0xE9, 0x56] = 0 := by decide

/-- Bit-extraction agrees with `testBit` and `% 64` on byte values. -/
theorem bit_bridge : ∀ se, se < 256 →
    ((((se &&& 0x80) >>> 7) != 0) = se.testBit 7 ∧
     (((se &&& 0x40) >>> 6) != 0) = se.testBit 6 ∧
     (se &&& 0x3F) = se % 64) := by decide

/-- Claim C7: for every well-formed input (total length equals the length
byte plus two, length byte at least one), `FloatCodec.decode` returns
exactly `(-1)^(bit 7) * (big-endian mantissa) * 10^(signed 6-bit exponent)`
as an exact rational, with no binary floating-point rounding. -/
theorem C7_float_decode_semantics (l se : Nat) (mb : List Nat) (h1 : 1 ≤ l)
    (hlen : mb.length = l) (hse : se < 256) :
    ∃ d, FloatCodec.decode (l :: se :: mb) = .ok d ∧
      d.toRat = (if se.testBit 7 then (-1 : ℚ) else 1) *
        (natFromBytesBE mb : ℚ) *
        (10 : ℚ) ^ (if se.testBit 6 then -((se % 64 : Nat) : Int)
          else ((se % 64 : Nat) : Int)) := by
  refine ⟨_, FloatCodec.decode_cons l se mb (by omega) hlen, ?_⟩
  rw [toRat_mk]
  have hb := bit_bridge se hse
  rw [hb.1, hb.2.1, hb.2.2]

/-- Claim C7 witness: decoding `04 43 00 00 00 FB` yields the exact decimal
`0.251`. -/
theorem C7_float_decode_semantics_witness :
    (∃ d, FloatCodec.decode [0x04, 0x43, 0x00, 0x00, 0x00, 0xFB] = .ok d ∧
      d.toRat = (if (0x43 : Nat).testBit 7 then (-1 : ℚ) else 1) *
        (natFromBytesBE [0x00, 0x00, 0x00, 0xFB] : ℚ) *
        (10 : ℚ) ^ (if (0x43 : Nat).testBit 6 then -((0x43 % 64 : Nat) : Int)
          else ((0x43 % 64 : Nat) : Int))) ∧
    FloatCodec.decode [0x04, 0x43, 0x00, 0x00, 0x00, 0xFB] =
      .ok ⟨false, [2, 5, 1], -3⟩ ∧
    PyDecimal.toRat ⟨false, [2, 5, 1], -3⟩ = 251 / 1000 :=
  ⟨C7_float_decode_semantics 4 0x43 [0x00, 0x00, 0x00, 0xFB] (by decide)
    (by decide) (by decide),
   by decide,
   by
     show (if false = true then (-1 : ℚ) else 1) *
       (digitsToNat [2, 5, 1] : ℚ) * (10 : ℚ) ^ (-3 : ℤ) = 251 / 1000
     norm_num [show digitsToNat [2, 5, 1] = 251 from rfl]⟩

/-- Claim C8: whenever a GetRegister response payload parses as exactly two
records with the same register ID, decode succeeds, the later record
overwrites the earlier one leaving a single mapping entry, and exactly one
duplicate diagnostic is added to the record warnings. -/
theorem C8_duplicate_overwrite (raw : List Nat) (d1 : RegisterData)
    (rest : List Nat) (w1 : Nat) (d2 : RegisterData) (w2 : Nat)
    (h1 : GetRegisterResponse.decodeOneRegisterValue raw = .ok (d1, rest, w1))
    (h2 : GetRegisterResponse.decodeOneRegisterValue rest = .ok (d2, [], w2))
    (hid : d1.id_ = d2.id_) :
    GetRegisterResponse.decode 0x10 raw = .ok ([(d2.id_, d2)], w1 + w2 + 1) :=
  getRegister_duplicate raw d1 rest w1 d2 w2 h1 h2 hid

/-- Claim C8 witness: the 9-byte record `00 80 16 04 11 01 2A F0 24`
repeated twice decodes to a single entry keyed 128 holding the second
occurrence, with exactly one diagnostic. -/
theorem C8_duplicate_overwrite_witness :
    GetRegisterResponse.decode 0x10
      [0x00, 0x80, 0x16, 0x04, 0x11, 0x01, 0x2A, 0xF0, 0x24,
       0x00, 0x80, 0x16, 0x04, 0x11, 0x01, 0x2A, 0xF0, 0x24] =
      .ok ([(128, ⟨128, 0x16, [0x04, 0x11, 0x01, 0x2A, 0xF0, 0x24]⟩)], 1) :=
  C8_duplicate_overwrite
    [0x00, 0x80, 0x16, 0x04, 0x11, 0x01, 0x2A, 0xF0, 0x24,
     0x00, 0x80, 0x16, 0x04, 0x11, 0x01, 0x2A, 0xF0, 0x24]
    ⟨128, 0x16, [0x04, 0x11, 0x01, 0x2A, 0xF0, 0x24]⟩
    [0x00, 0x80, 0x16, 0x04, 0x11, 0x01, 0x2A, 0xF0, 0x24] 0
    ⟨128, 0x16, [0x04, 0x11, 0x01, 0x2A, 0xF0, 0x24]⟩ 0
    (by decide) (by decide) (by decide)

/-- Claim C9: the serial-number validator accepts the string `"+5"` even
though `'+'` is not a digit, because Python `int()` tolerates an optional
sign - contradicting the validator's digits-only contract; a numeric value
below the range still raises the out-of-range error instead. -/
theorem C9_plus_accepted :
    GetSerialResponse.digits_only_validator "+5" = .accepted ∧
    '+' ∈ "+5".toList ∧ '+'.isDigit = false ∧
    GetSerialResponse.digits_only_validator "-1" = .outOfRange := by decide

/-- Claim C10: for either direction, decoding the two-byte frame of just the
start byte followed by the stop byte succeeds with the empty byte sequence,
while encoding the empty sequence fails with a length error. -/
theorem C10_empty_asymmetry :
    PhysicalCodec.decode .TO_METER [0x80, 0x0D] = .ok [] ∧
    PhysicalCodec.encode .TO_METER [] =
      .error (.dataLengthUnexpected "Data link bytes" 0 none false) ∧
    PhysicalCodec.decode .FROM_METER [0x40, 0x0D] = .ok [] ∧
    PhysicalCodec.encode .FROM_METER [] =
      .error (.dataLengthUnexpected "Data link bytes" 0 none false) := by decide
